import Mathlib

/-!
Verification of the LaTeX-subset renderer (LaTeXRenderer component).

The renderer is a pipeline of global pattern-rewrite stages applied to the
input string in a fixed order.  Each JavaScript `String.replace(regex, out)`
call with the global flag is modelled as `gsub m`, where the matcher `m`
implements the regex's leftmost-match semantics at a given position:
`m s = some (out, rest)` means the pattern matches a prefix of `s`, produces
the replacement text `out` and leaves `rest` unconsumed; `gsub` scans left to
right, emitting unmatched characters unchanged and resuming after each match,
exactly like a global regex replace (replacement text is not rescanned within
the same pass).

Strings are modelled as lists of Unicode characters.  Line terminators other
than LF are not modelled (all inputs considered use LF only), and the regex
class backslash-d is the ASCII digit class, as in JavaScript.
-/

abbrev Cs := List Char

/-- Left brace character (written via its code point). -/
def lbr : Char := Char.ofNat 123

/-- Right brace character (written via its code point). -/
def rbr : Char := Char.ofNat 125

/-- Shorthand turning a string literal into its character list. -/
def cs (s : String) : Cs := s.data

/-- Boolean prefix test on character lists. -/
def pfx : Cs → Cs → Bool
  | [], _ => true
  | _ :: _, [] => false
  | c :: p, d :: s => c == d && pfx p s

/-- Boolean suffix test on character lists. -/
def sfxB (p s : Cs) : Bool := pfx p.reverse s.reverse

/-- Longest prefix of characters satisfying the predicate. -/
def takeW (p : Char → Bool) : Cs → Cs
  | [] => []
  | c :: t => if p c then c :: takeW p t else []

/-- Remainder after the longest prefix satisfying the predicate. -/
def dropW (p : Char → Bool) : Cs → Cs
  | [] => []
  | c :: t => if p c then dropW p t else c :: t

/-- Split at the first occurrence of `pat`: returns the text before the
occurrence and the text after it (the occurrence itself is consumed).
Only used with a nonempty `pat`. -/
def findSplit (pat : Cs) : Cs → Option (Cs × Cs)
  | [] => none
  | c :: t =>
    if pfx pat (c :: t) then some ([], (c :: t).drop pat.length)
    else (findSplit pat t).map (fun p => (c :: p.1, p.2))

/-- Substring test built on `findSplit`. -/
def containsB (pat s : Cs) : Bool := (findSplit pat s).isSome

/-- Fuelled splitting on every occurrence of a separator, mirroring the
JavaScript `String.prototype.split` with a nonempty string separator. -/
def splitF (sep : Cs) : Nat → Cs → List Cs
  | 0, s => [s]
  | f + 1, s =>
    match findSplit sep s with
    | none => [s]
    | some p => p.1 :: splitF sep f p.2

/-- Split on every occurrence of a nonempty separator. -/
def splitOn (sep s : Cs) : List Cs := splitF sep s.length s

/-- Interleave a separator between consecutive parts. -/
def ic (sep : Cs) : List Cs → Cs
  | [] => []
  | [p] => p
  | p :: q :: t => p ++ sep ++ ic sep (q :: t)

/-- Concatenation of a list of character lists. -/
def joinL (ls : List Cs) : Cs := ls.foldr (fun a b => a ++ b) []

/-- The JavaScript whitespace class, as used by `trim` and the regex
class backslash-s: ASCII whitespace, NBSP, Ogham space, the Zs range
U+2000..U+200A, line/paragraph separators, narrow/medium spaces,
ideographic space and the BOM. -/
def isWsC (c : Char) : Bool :=
  c == ' ' || c == '\t' || c == '\n' || c == '\r' ||
  c == Char.ofNat 11 || c == Char.ofNat 12 || c == Char.ofNat 160 ||
  c == Char.ofNat 5760 ||
  (Nat.ble 8192 c.toNat && Nat.ble c.toNat 8202) ||
  c == Char.ofNat 8232 || c == Char.ofNat 8233 || c == Char.ofNat 8239 ||
  c == Char.ofNat 8287 || c == Char.ofNat 12288 || c == Char.ofNat 65279

/-- Strip leading JavaScript whitespace. -/
def trimL (s : Cs) : Cs := dropW isWsC s

/-- Strip trailing JavaScript whitespace. -/
def trimR (s : Cs) : Cs := (dropW isWsC s.reverse).reverse

/-- The JavaScript `String.prototype.trim`. -/
def jsTrim (s : Cs) : Cs := trimR (trimL s)

/-- A matcher attempts a pattern at the current position; on success it
returns the replacement text and the unconsumed remainder. -/
def Matcher : Type := Cs → Option (Cs × Cs)

/-- Matcher combinator: require a literal prefix, then continue. -/
def litThen (pat : Cs) (k : Cs → Option (Cs × Cs)) : Matcher :=
  fun s => if pfx pat s then k (s.drop pat.length) else none

/-- Matcher for a fully literal pattern with a fixed replacement. -/
def litM (pat out : Cs) : Matcher :=
  litThen pat (fun r => some (out, r))

/-- Fuelled global-substitution driver; one unit of fuel is spent per step,
and every matcher used consumes at least one character on success, so fuel
equal to the length of the input is always sufficient. -/
def gsubF (m : Matcher) : Nat → Cs → Cs
  | 0, s => s
  | _ + 1, [] => []
  | f + 1, c :: t =>
    match m (c :: t) with
    | some p => p.1 ++ gsubF m f p.2
    | none => c :: gsubF m f t

/-- Global substitution: the model of a global regex replace. -/
def gsub (m : Matcher) (s : Cs) : Cs := gsubF m s.length s

/-- Matcher for the display-math bracket form: a lazy body between the
two-character open and close delimiters, wrapped in a display block. -/
def mathDisplayBracket : Matcher :=
  litThen (cs ("\\[")) (fun r =>
    (findSplit (cs ("\\]")) r).map
      (fun p => (cs ("<div class=\"math-display\">") ++ p.1 ++ cs ("</div>"), p.2)))

/-- Matcher for the inline-math parenthesis form. -/
def mathInlineParen : Matcher :=
  litThen (cs ("\\(")) (fun r =>
    (findSplit (cs ("\\)")) r).map
      (fun p => (cs ("<span class=\"math-inline\">") ++ p.1 ++ cs ("</span>"), p.2)))

/-- Characters other than the dollar sign. -/
def notDollar (c : Char) : Bool := !(c == '$')

/-- Matcher for the doubled-dollar display form: a nonempty dollar-free body
between two doubled dollars. -/
def mathDisplayDollar : Matcher :=
  litThen (cs ("$$")) (fun r =>
    let body := takeW notDollar r
    if body.isEmpty then none
    else
      let rest := dropW notDollar r
      if pfx (cs ("$$")) rest then
        some (cs ("<div class=\"math-display\">") ++ body ++ cs ("</div>"), rest.drop 2)
      else none)

/-- Matcher for the single-dollar inline form. -/
def mathInlineDollar : Matcher :=
  litThen (cs ("$")) (fun r =>
    let body := takeW notDollar r
    if body.isEmpty then none
    else
      let rest := dropW notDollar r
      if pfx (cs ("$")) rest then
        some (cs ("<span class=\"math-inline\">") ++ body ++ cs ("</span>"), rest.drop 1)
      else none)

/-- Characters other than the closing brace. -/
def notRbr (c : Char) : Bool := !(c == rbr)

/-- Matcher for a command taking one brace group whose body is a nonempty
run of characters up to the first closing brace. -/
def braceCmd (pat o1 o2 : Cs) : Matcher :=
  litThen pat (fun r =>
    let body := takeW notRbr r
    if body.isEmpty then none
    else
      match dropW notRbr r with
      | c :: rest => if c == rbr then some (o1 ++ body ++ o2, rest) else none
      | [] => none)

/-- Overline accent rewrite. -/
def overlineM : Matcher :=
  braceCmd (cs ("\\overline\x7b")) (cs ("<span class=\"math-overline\">")) (cs ("</span>"))

/-- Underline accent rewrite. -/
def underlineM : Matcher :=
  braceCmd (cs ("\\underline\x7b")) (cs ("<span class=\"math-underline\">")) (cs ("</span>"))

/-- Hat accent rewrite. -/
def hatM : Matcher :=
  braceCmd (cs ("\\hat\x7b")) (cs ("<span class=\"math-hat\">")) (cs ("</span>"))

/-- Tilde accent rewrite. -/
def tildeM : Matcher :=
  braceCmd (cs ("\\tilde\x7b")) (cs ("<span class=\"math-tilde\">")) (cs ("</span>"))

/-- Vector accent rewrite. -/
def vecM : Matcher :=
  braceCmd (cs ("\\vec\x7b")) (cs ("<span class=\"math-vec\">")) (cs ("</span>"))

/-- Dot accent rewrite. -/
def dotM : Matcher :=
  braceCmd (cs ("\\dot\x7b")) (cs ("<span class=\"math-dot\">")) (cs ("</span>"))

/-- Double-dot accent rewrite. -/
def ddotM : Matcher :=
  braceCmd (cs ("\\ddot\x7b")) (cs ("<span class=\"math-ddot\">")) (cs ("</span>"))

/-- Converts a matrix environment body to an HTML table: trim the body,
split into rows on the double backslash, trim each row, split each row into
cells on the ampersand, trim each cell. -/
def renderMatrixL (content cls : Cs) : Cs :=
  cs ("<table class=\"math-matrix ") ++ cls ++ cs ("\"><tbody>") ++
    joinL (((splitOn (cs ("\\\\")) (jsTrim content)).map jsTrim).map (fun row =>
      cs ("<tr>") ++
        joinL (((splitOn (cs ("&")) row).map jsTrim).map
          (fun cell => cs ("<td>") ++ cell ++ cs ("</td>"))) ++
      cs ("</tr>"))) ++
    cs ("</tbody></table>")

/-- Matcher for one matrix environment: a lazy body between the begin and
end markers, rendered through `renderMatrixL` with the given class. -/
def envMatrix (name cls : Cs) : Matcher :=
  litThen (cs ("\\begin\x7b") ++ name ++ [rbr]) (fun r =>
    (findSplit (cs ("\\end\x7b") ++ name ++ [rbr]) r).map
      (fun p => (renderMatrixL p.1 cls, p.2)))

/-- Characters other than the two braces. -/
def notBrace (c : Char) : Bool := !(c == lbr) && !(c == rbr)

/-- Scan a fraction argument group: a sequence of brace-free runs and
singly-nested complete brace groups, closed by a brace at depth zero (the
closing brace is consumed).  This is the matching performed by the
brace-balanced fraction regex, which tracks exactly one level of nesting. -/
def scanAF : Nat → Cs → Option (Cs × Cs)
  | 0, _ => none
  | f + 1, s =>
    let run := takeW notBrace s
    match dropW notBrace s with
    | [] => none
    | c :: r =>
      if c == rbr then some (run, r)
      else
        let inner := takeW notBrace r
        match dropW notBrace r with
        | d :: r2 =>
          if d == rbr then
            (scanAF f r2).map (fun p => (run ++ lbr :: (inner ++ rbr :: p.1), p.2))
          else none
        | [] => none

/-- The fraction replacement markup. -/
def fracOut (num den : Cs) : Cs :=
  cs ("<span class=\"math-frac\"><span class=\"math-num\">") ++ num ++
    cs ("</span><span class=\"math-den\">") ++ den ++ cs ("</span></span>")

/-- Matcher for the brace-balanced fraction pattern (one nesting level per
argument); `cmd` is the command text including its opening brace. -/
def fracNested (cmd : Cs) : Matcher :=
  litThen cmd (fun r =>
    match scanAF (r.length + 1) r with
    | none => none
    | some p =>
      match p.2 with
      | c :: r2 =>
        if c == lbr then
          match scanAF (r2.length + 1) r2 with
          | none => none
          | some q => some (fracOut p.1 q.1, q.2)
        else none
      | [] => none)

/-- Matcher for the simple fraction fallback pattern, whose arguments are
nonempty runs up to the first closing brace. -/
def fracSimple (cmd : Cs) : Matcher :=
  litThen cmd (fun r =>
    let b1 := takeW notRbr r
    if b1.isEmpty then none
    else
      match dropW notRbr r with
      | c :: r1 =>
        if c == rbr then
          match r1 with
          | d :: r2 =>
            if d == lbr then
              let b2 := takeW notRbr r2
              if b2.isEmpty then none
              else
                match dropW notRbr r2 with
                | e :: r3 => if e == rbr then some (fracOut b1 b2, r3) else none
                | [] => none
            else none
          | [] => none
        else none
      | [] => none)

/-- Blackboard bold character mappings, in source order. -/
def BLACKBOARD_BOLD : List (String × String) :=
  [("R", "ℝ"), ("N", "ℕ"), ("Z", "ℤ"), ("Q", "ℚ"), ("C", "ℂ"), ("H", "ℍ"), ("P", "ℙ")]

/-- The blackboard-bold stage: one literal global replace per table entry. -/
def bbStage (s : Cs) : Cs :=
  BLACKBOARD_BOLD.foldl
    (fun acc pr =>
      gsub (litM (cs ("\\mathbb\x7b") ++ pr.1.data ++ [rbr])
        (cs ("<span class=\"math-bb\">") ++ pr.2.data ++ cs ("</span>"))) acc)
    s

/-- Square root with a single argument. -/
def sqrtM : Matcher :=
  braceCmd (cs ("\\sqrt\x7b")) (cs ("√(")) (cs (")"))

/-- Rightmost split of a run at a closing square bracket that is immediately
followed by an opening brace with a nonempty remainder: this reproduces the
backtracking of the greedy index group in the indexed-root pattern. -/
def idxSearch : Cs → Option (Cs × Cs)
  | [] => none
  | c :: t =>
    match idxSearch t with
    | some p => some (c :: p.1, p.2)
    | none =>
      if c == ']' then
        match t with
        | d :: t2 => if d == lbr && !t2.isEmpty then some ([], t2) else none
        | [] => none
      else none

/-- Square root with an explicit index. -/
def sqrtIdxM : Matcher :=
  litThen (cs ("\\sqrt[")) (fun r =>
    let run := takeW notRbr r
    match dropW notRbr r with
    | c :: rest =>
      if c == rbr then
        match idxSearch run with
        | some p =>
          if p.1.isEmpty then none
          else
            some (cs ("<span class=\"math-root\"><sup>") ++ p.1 ++
              cs ("</sup>√(") ++ p.2 ++ cs (")</span>"), rest)
        | none => none
      else none
    | [] => none)

/-- Symbol replacement mappings, in source order (category comments follow
the source). -/
def SYMBOL_REPLACEMENTS : List (String × String) := [
  ("\\int", "∫"), ("\\iint", "∬"), ("\\iiint", "∭"), ("\\oint", "∮"),
  ("\\partial", "∂"), ("\\nabla", "∇"), ("\\Delta", "Δ"),
  ("\\alpha", "α"), ("\\beta", "β"), ("\\gamma", "γ"), ("\\delta", "δ"),
  ("\\epsilon", "ε"), ("\\zeta", "ζ"), ("\\eta", "η"), ("\\theta", "θ"),
  ("\\iota", "ι"), ("\\kappa", "κ"), ("\\lambda", "λ"), ("\\mu", "μ"),
  ("\\nu", "ν"), ("\\xi", "ξ"), ("\\pi", "π"), ("\\rho", "ρ"),
  ("\\sigma", "σ"), ("\\tau", "τ"), ("\\upsilon", "υ"), ("\\phi", "φ"),
  ("\\chi", "χ"), ("\\psi", "ψ"), ("\\omega", "ω"),
  ("\\Gamma", "Γ"), ("\\Theta", "Θ"), ("\\Lambda", "Λ"), ("\\Xi", "Ξ"),
  ("\\Pi", "Π"), ("\\Sigma", "Σ"), ("\\Upsilon", "Υ"), ("\\Phi", "Φ"),
  ("\\Psi", "Ψ"), ("\\Omega", "Ω"),
  ("\\pm", "±"), ("\\times", "×"), ("\\div", "÷"), ("\\cdot", "·"),
  ("\\sum", "∑"), ("\\prod", "∏"), ("\\bigcup", "⋃"), ("\\bigcap", "⋂"),
  ("\\bigoplus", "⨁"), ("\\bigotimes", "⨂"),
  ("\\cap", "∩"), ("\\cup", "∪"), ("\\leq", "≤"), ("\\geq", "≥"),
  ("\\neq", "≠"), ("\\approx", "≈"), ("\\equiv", "≡"), ("\\sim", "∼"),
  ("\\cong", "≅"), ("\\propto", "∝"), ("\\subset", "⊂"), ("\\subseteq", "⊆"),
  ("\\supset", "⊃"), ("\\supseteq", "⊇"), ("\\in", "∈"), ("\\notin", "∉"),
  ("\\forall", "∀"), ("\\exists", "∃"), ("\\neg", "¬"), ("\\land", "∧"),
  ("\\lor", "∨"), ("\\implies", "⇒"), ("\\iff", "⇔"),
  ("\\to", "→"), ("\\rightarrow", "→"), ("\\leftarrow", "←"),
  ("\\uparrow", "↑"), ("\\downarrow", "↓"), ("\\leftrightarrow", "↔"),
  ("\\Rightarrow", "⇒"), ("\\Leftarrow", "⇐"), ("\\Leftrightarrow", "⇔"),
  ("\\mapsto", "↦"), ("\\hookrightarrow", "↪"), ("\\hookleftarrow", "↩"),
  ("\\nearrow", "↗"), ("\\searrow", "↘"), ("\\swarrow", "↙"), ("\\nwarrow", "↖"),
  ("\\\x7b", "\x7b"), ("\\\x7d", "\x7d"), ("\\lbrace", "\x7b"), ("\\rbrace", "\x7d"),
  ("\\lfloor", "⌊"), ("\\rfloor", "⌋"), ("\\lceil", "⌈"), ("\\rceil", "⌉"),
  ("\\emptyset", "∅"), ("\\infty", "∞"), ("\\aleph", "ℵ"), ("\\hbar", "ℏ"),
  ("\\ell", "ℓ"), ("\\wp", "℘"), ("\\Re", "ℜ"), ("\\Im", "ℑ"),
  ("\\angle", "∠"), ("\\top", "⊤"), ("\\bot", "⊥"), ("\\vdash", "⊢"),
  ("\\dashv", "⊣"), ("\\models", "⊨"), ("\\therefore", "∴"), ("\\because", "∵"),
  ("\\QED", "∎"), ("\\blacksquare", "∎"), ("\\triangle", "△"),
  ("\\oplus", "⊕"), ("\\otimes", "⊗"), ("\\odot", "⊙")]

/-- The symbol-substitution stage: one literal global replace per table
entry, applied in table order. -/
def symbolStage (s : Cs) : Cs :=
  SYMBOL_REPLACEMENTS.foldl (fun acc pr => gsub (litM pr.1.data pr.2.data) acc) s

/-- The recognized function names, in source order. -/
def mathFunctions : List String :=
  ["det", "dim", "ker", "deg", "arg", "exp", "log", "ln", "sin", "cos", "tan", "lim"]

/-- The function-name wrapping stage. -/
def funcStage (s : Cs) : Cs :=
  mathFunctions.foldl
    (fun acc f =>
      gsub (litM ('\\' :: f.data)
        (cs ("<span class=\"math-func\">") ++ f.data ++ cs ("</span>"))) acc)
    s

/-- Superscript of a digit run. -/
def supDigitM : Matcher :=
  litThen (cs ("^")) (fun r =>
    let ds := takeW Char.isDigit r
    if ds.isEmpty then none
    else some (cs ("<sup>") ++ ds ++ cs ("</sup>"), dropW Char.isDigit r))

/-- Superscript of a brace group. -/
def supBraceM : Matcher :=
  braceCmd (cs ("^\x7b")) (cs ("<sup>")) (cs ("</sup>"))

/-- Subscript of a digit run. -/
def subDigitM : Matcher :=
  litThen (cs ("_")) (fun r =>
    let ds := takeW Char.isDigit r
    if ds.isEmpty then none
    else some (cs ("<sub>") ++ ds ++ cs ("</sub>"), dropW Char.isDigit r))

/-- Subscript of a brace group. -/
def subBraceM : Matcher :=
  braceCmd (cs ("_\x7b")) (cs ("<sub>")) (cs ("</sub>"))

/-- Bold text command. -/
def textbfM : Matcher :=
  braceCmd (cs ("\\textbf\x7b")) (cs ("<strong>")) (cs ("</strong>"))

/-- Italic text command. -/
def textitM : Matcher :=
  braceCmd (cs ("\\textit\x7b")) (cs ("<em>")) (cs ("</em>"))

/-- Characters other than the asterisk. -/
def notStar (c : Char) : Bool := !(c == '*')

/-- Markdown bold. -/
def boldM : Matcher :=
  litThen (cs ("**")) (fun r =>
    let body := takeW notStar r
    if body.isEmpty then none
    else
      let rest := dropW notStar r
      if pfx (cs ("**")) rest then
        some (cs ("<strong>") ++ body ++ cs ("</strong>"), rest.drop 2)
      else none)

/-- Markdown italic. -/
def italM : Matcher :=
  litThen (cs ("*")) (fun r =>
    let body := takeW notStar r
    if body.isEmpty then none
    else
      let rest := dropW notStar r
      if pfx (cs ("*")) rest then
        some (cs ("<em>") ++ body ++ cs ("</em>"), rest.drop 1)
      else none)

/-- Rightmost split of a list at a newline character. -/
def lastNlSplit : Cs → Option (Cs × Cs)
  | [] => none
  | c :: t =>
    match lastNlSplit t with
    | some p => some (c :: p.1, p.2)
    | none => if c == '\n' then some ([], t) else none

/-- Matcher for a blank-line separator: a newline, then greedy whitespace
ending at the last newline of the whitespace run. -/
def paraM : Matcher :=
  litThen (cs ("\n")) (fun r =>
    let run := takeW isWsC r
    match lastNlSplit run with
    | some p => some (cs ("</p><p class=\"mb-4\">"), p.2 ++ dropW isWsC r)
    | none => none)

/-- Literal line-break rewrite. -/
def brM : Matcher := litM (cs ("\\\\")) (cs ("<br class=\"mb-2\">"))

/-- Apply a per-line rewrite to every newline-separated line. -/
def mapLines (f : Cs → Cs) (s : Cs) : Cs :=
  ic (cs ("\n")) ((splitOn (cs ("\n")) s).map f)

/-- A line-anchored rewrite: a literal marker at line start followed by a
nonempty rest of line. -/
def markLine (mark out1 out2 : Cs) (line : Cs) : Cs :=
  if pfx mark line && !(line.drop mark.length).isEmpty then
    out1 ++ line.drop mark.length ++ out2
  else line

/-- Level-three heading line. -/
def h3Line (line : Cs) : Cs :=
  markLine (cs ("### "))
    (cs ("</p><h3 class=\"text-lg font-semibold text-gray-900 mt-6 mb-3\">"))
    (cs ("</h3><p class=\"mb-4\">")) line

/-- Level-two heading line. -/
def h2Line (line : Cs) : Cs :=
  markLine (cs ("## "))
    (cs ("</p><h2 class=\"text-xl font-semibold text-gray-900 mt-8 mb-4\">"))
    (cs ("</h2><p class=\"mb-4\">")) line

/-- Level-one heading line. -/
def h1Line (line : Cs) : Cs :=
  markLine (cs ("# "))
    (cs ("</p><h1 class=\"text-2xl font-bold text-gray-900 mt-10 mb-5\">"))
    (cs ("</h1><p class=\"mb-4\">")) line

/-- Unordered list item line. -/
def liLine (line : Cs) : Cs :=
  markLine (cs ("- ")) (cs ("<li class=\"ml-6 mb-2\">• ")) (cs ("</li>")) line

/-- Ordered list item line: one or more digits, a dot, a space, then a
nonempty rest of line (the digits are dropped by the replacement, as in the
source). -/
def numLine (line : Cs) : Cs :=
  let ds := takeW Char.isDigit line
  let r := dropW Char.isDigit line
  if !ds.isEmpty && pfx (cs (". ")) r && !(r.drop 2).isEmpty then
    cs ("<li class=\"ml-6 mb-2 list-decimal\">") ++ r.drop 2 ++ cs ("</li>")
  else line

/-- Converts LaTeX content to HTML: the ordered rewrite pipeline of the
renderer, one binding per source replace call, in source order. -/
def renderLaTeXL (s : Cs) : Cs :=
  let r1 := gsub mathDisplayBracket s
  let r2 := gsub mathInlineParen r1
  let r3 := gsub mathDisplayDollar r2
  let r4 := gsub mathInlineDollar r3
  let r5 := gsub overlineM r4
  let r6 := gsub underlineM r5
  let r7 := gsub hatM r6
  let r8 := gsub tildeM r7
  let r9 := gsub vecM r8
  let r10 := gsub dotM r9
  let r11 := gsub ddotM r10
  let r12 := gsub (envMatrix (cs ("pmatrix")) (cs ("math-pmatrix"))) r11
  let r13 := gsub (envMatrix (cs ("bmatrix")) (cs ("math-bmatrix"))) r12
  let r14 := gsub (envMatrix (cs ("matrix")) (cs (""))) r13
  let r15 := gsub (envMatrix (cs ("vmatrix")) (cs ("math-vmatrix"))) r14
  let r16 := gsub (envMatrix (cs ("Vmatrix")) (cs ("math-Vmatrix"))) r15
  let r17 := gsub (fracNested (cs ("\\dfrac\x7b"))) r16
  let r18 := gsub (fracNested (cs ("\\frac\x7b"))) r17
  let r19 := gsub (fracSimple (cs ("\\dfrac\x7b"))) r18
  let r20 := gsub (fracSimple (cs ("\\frac\x7b"))) r19
  let r21 := bbStage r20
  let r22 := gsub sqrtM r21
  let r23 := gsub sqrtIdxM r22
  let r24 := symbolStage r23
  let r25 := funcStage r24
  let r26 := gsub supDigitM r25
  let r27 := gsub supBraceM r26
  let r28 := gsub subDigitM r27
  let r29 := gsub subBraceM r28
  let r30 := gsub textbfM r29
  let r31 := gsub textitM r30
  let r32 := gsub boldM r31
  let r33 := gsub italM r32
  let r34 := gsub paraM r33
  let r35 := gsub brM r34
  let r36 := mapLines h3Line r35
  let r37 := mapLines h2Line r36
  let r38 := mapLines h1Line r37
  let r39 := mapLines liLine r38
  let r40 := mapLines numLine r39
  r40

/-- String-level renderer. -/
def renderLaTeX (s : String) : String := String.mk (renderLaTeXL s.data)

/-- String-level matrix rendering. -/
def renderMatrix (content cls : String) : String :=
  String.mk (renderMatrixL content.data cls.data)

/-- Does the markup start with one of the recognized block-level opening
tags (paragraph, heading, division, table)? -/
def startsBlock (s : Cs) : Bool :=
  pfx (cs ("<p")) s || pfx (cs ("<h")) s || pfx (cs ("<div")) s || pfx (cs ("<table")) s

/-- Does the markup end with one of the recognized block-level closing
tags (paragraph, division, table)? -/
def endsBlock (s : Cs) : Bool :=
  sfxB (cs ("</p>")) s || sfxB (cs ("</div>")) s || sfxB (cs ("</table>")) s

/-- The paragraph-opening tag used by the wrapping heuristic. -/
def pOpenL : Cs := cs ("<p class=\"mb-4\">")

/-- Output normalization: prepend a paragraph opening when the markup does
not start with a block-level opening tag; then append a paragraph closing
when the (possibly prepended) markup does not end with a block-level closing
tag and contains no line-break tag. -/
def ensureWrappedL (s : Cs) : Cs :=
  let s1 := if startsBlock s then s else pOpenL ++ s
  if !endsBlock s1 && !containsB (cs ("<br")) s1 then s1 ++ cs ("</p>") else s1

/-- The component's outcome: either the designated no-content placeholder
(a distinct sentinel, not markup produced by the pipeline) or rendered
markup. -/
inductive RenderOutput where
  | noContent : RenderOutput
  | rendered : String → RenderOutput
deriving DecidableEq

/-- The renderer component: absent input is treated as the empty string; an
input that trims to nothing yields the no-content placeholder; otherwise the
trimmed input is rendered and wrapped. -/
def LaTeXRenderer (content : Option String) : RenderOutput :=
  let safe := match content with
    | some s => s
    | none => ""
  if (jsTrim safe.data).isEmpty then RenderOutput.noContent
  else RenderOutput.rendered (String.mk (ensureWrappedL (renderLaTeXL (jsTrim safe.data))))

/-- Apply a function to the first element of a list. -/
def mFirst (f : Cs → Cs) : List Cs → List Cs
  | [] => []
  | x :: xs => f x :: xs

/-- Apply a function to the last element of a list. -/
def mLast (f : Cs → Cs) : List Cs → List Cs
  | [] => []
  | [x] => [f x]
  | x :: y :: xs => x :: mLast f (y :: xs)

/-- Fuelled recognizer for argument text whose brace nesting is exactly the
one level handled by the brace-balanced fraction pattern: a sequence of
brace-free runs and complete singly-nested groups. -/
def bal1F : Nat → Cs → Bool
  | 0, _ => false
  | f + 1, s =>
    match dropW notBrace s with
    | [] => true
    | c :: r =>
      if c == lbr then
        match dropW notBrace r with
        | d :: r2 => if d == rbr then bal1F f r2 else false
        | [] => false
      else false

/-- Recognizer for singly-nested balanced argument text. -/
def bal1 (s : Cs) : Bool := bal1F (s.length + 1) s

/-- Characters inert for every rewrite stage: letters, digits and spaces. -/
def inert3 (c : Char) : Bool := c.isAlpha || c.isDigit || c == ' '

/-- Characters that no rewrite stage consumes, including the
HTML-significant ones: the renderer passes them through unescaped. -/
def passChar (c : Char) : Bool :=
  c.isAlpha || c.isDigit || c == ' ' || c == '<' || c == '>' || c == '&' ||
  c == '"' || c == '/' || c == '='

/-- Characters occurring in markup emitted by the rewrite stages (which adds
the hyphen to the pass-through set): no later stage consumes them except at a
line start, which is handled separately. -/
def calmChar (c : Char) : Bool := passChar c || c == '-'

/-! Generic lemmas about the prefix test, the substitution driver and the
scanning primitives. -/

theorem pfx_nil_left (s : Cs) : pfx [] s = true := by
  cases s <;> rfl

theorem pfx_cons_cons (c d : Char) (p s : Cs) :
    pfx (c :: p) (d :: s) = ((c == d) && pfx p s) := rfl

theorem pfx_cons_nil (c : Char) (p : Cs) : pfx (c :: p) [] = false := rfl

theorem pfx_false_head (a c : Char) (p t : Cs) (h : ¬(a = c)) :
    pfx (a :: p) (c :: t) = false := by
  rw [pfx_cons_cons, beq_eq_false_iff_ne.mpr h, Bool.false_and]

theorem pfx_false_second (a b d : Char) (p t : Cs) (h : ¬(b = d)) :
    pfx (a :: b :: p) (a :: d :: t) = false := by
  rw [pfx_cons_cons, pfx_false_head b d p t h, Bool.and_false]

theorem pfx_append_self : ∀ (p r : Cs), pfx p (p ++ r) = true := by
  intro p r
  induction p with
  | nil => exact pfx_nil_left r
  | cons c p ih => rw [List.cons_append, pfx_cons_cons, ih, beq_self_eq_true, Bool.true_and]

theorem pfx_append_mono : ∀ (p a b : Cs), pfx p a = true → pfx p (a ++ b) = true := by
  intro p
  induction p with
  | nil => intro a b _; exact pfx_nil_left _
  | cons c p ih =>
    intro a b h
    cases a with
    | nil => rw [pfx_cons_nil] at h; cases h
    | cons d a =>
      rw [pfx_cons_cons] at h
      rw [List.cons_append, pfx_cons_cons]
      have h1 := (Bool.and_eq_true _ _).mp h
      rw [h1.1, ih a b h1.2, Bool.true_and]

theorem pfx_append_cases : ∀ (v x y : Cs), pfx v (x ++ y) = true →
    pfx v x = true ∨ ∃ v2, v2 ≠ [] ∧ v = x ++ v2 ∧ pfx v2 y = true := by
  intro v
  induction v with
  | nil => intro x y _; exact Or.inl (pfx_nil_left x)
  | cons a v ih =>
    intro x y h
    cases x with
    | nil =>
      exact Or.inr ⟨a :: v, List.cons_ne_nil a v, rfl, h⟩
    | cons d x =>
      rw [List.cons_append, pfx_cons_cons] at h
      have h1 := (Bool.and_eq_true _ _).mp h
      rcases ih x y h1.2 with hl | ⟨v2, hne, hev, hp⟩
      · refine Or.inl ?_
        rw [pfx_cons_cons, h1.1, hl]
        rfl
      · have had := eq_of_beq h1.1
        refine Or.inr ⟨v2, hne, ?_, hp⟩
        rw [List.cons_append, ← hev, had]

theorem drop_len_append : ∀ (p r : Cs), (p ++ r).drop p.length = r := by
  intro p r
  induction p with
  | nil => rfl
  | cons c p ih => simp [ih]

theorem pfx_eq_append : ∀ (p s : Cs), pfx p s = true → s = p ++ s.drop p.length := by
  intro p
  induction p with
  | nil => intro s _; rfl
  | cons c p ih =>
    intro s h
    cases s with
    | nil => rw [pfx_cons_nil] at h; cases h
    | cons d s =>
      rw [pfx_cons_cons] at h
      have h1 := (Bool.and_eq_true _ _).mp h
      have hd := eq_of_beq h1.1
      have := ih s h1.2
      rw [List.cons_append]
      exact List.cons_eq_cons.mpr ⟨hd.symm, this⟩

theorem litThen_none_of_head (pat : Cs) (k : Cs → Option (Cs × Cs)) (a c : Char) (t : Cs)
    (hh : pat.head? = some a) (hc : ¬(c = a)) : litThen pat k (c :: t) = none := by
  cases pat with
  | nil => cases hh
  | cons b p =>
    have hb : b = a := by simpa using hh
    subst hb
    unfold litThen
    rw [pfx_false_head b c p t (fun e => hc e.symm)]
    rfl

theorem litThen_nil_none (pat : Cs) (k : Cs → Option (Cs × Cs)) (a : Char)
    (hh : pat.head? = some a) : litThen pat k [] = none := by
  cases pat with
  | nil => cases hh
  | cons b p => unfold litThen; rw [pfx_cons_nil]; rfl

theorem gsubF_zero (m : Matcher) (s : Cs) : gsubF m 0 s = s := by
  cases s <;> rfl

theorem gsubF_nil (m : Matcher) : ∀ f, gsubF m f [] = [] := by
  intro f; cases f <;> rfl

theorem gsubF_cons (m : Matcher) (f : Nat) (c : Char) (t : Cs) :
    gsubF m (f + 1) (c :: t) =
      match m (c :: t) with
      | some p => p.1 ++ gsubF m f p.2
      | none => c :: gsubF m f t := rfl

theorem gsubF_id (m : Matcher) :
    ∀ (f : Nat) (s : Cs), (∀ c t, (c :: t) <:+ s → m (c :: t) = none) → gsubF m f s = s := by
  intro f
  induction f with
  | zero => intro s _; exact gsubF_zero m s
  | succ f ih =>
    intro s h
    cases s with
    | nil => exact gsubF_nil m _
    | cons c t =>
      rw [gsubF_cons, h c t (List.suffix_refl _)]
      have := ih t (fun c' t' hs => h c' t' (hs.trans (List.suffix_cons c t)))
      rw [this]

theorem gsub_id (m : Matcher) (s : Cs)
    (h : ∀ c t, (c :: t) <:+ s → m (c :: t) = none) : gsub m s = s :=
  gsubF_id m s.length s h

theorem gsub_litThen_id (pat : Cs) (k : Cs → Option (Cs × Cs)) (a : Char) (s : Cs)
    (hh : pat.head? = some a) (hs : ∀ c ∈ s, ¬(c = a)) : gsub (litThen pat k) s = s := by
  refine gsub_id _ s (fun c t hsuf => ?_)
  exact litThen_none_of_head pat k a c t hh (hs c (hsuf.subset (List.mem_cons_self c t)))

theorem gsubF_append_none (m : Matcher) :
    ∀ (p : Cs) (f : Nat) (u : Cs), (∀ q, q ≠ [] → q <:+ p → m (q ++ u) = none) →
      gsubF m (p.length + f) (p ++ u) = p ++ gsubF m f u := by
  intro p
  induction p with
  | nil => intro f u _; simp
  | cons c p ih =>
    intro f u h
    have hstep : m (c :: (p ++ u)) = none := by
      have := h (c :: p) (List.cons_ne_nil c p) (List.suffix_refl _)
      simpa using this
    have harr : (c :: p).length + f = (p.length + f) + 1 := by
      simp [List.length_cons]
      omega
    rw [harr, List.cons_append, gsubF_cons, hstep]
    have := ih f u (fun q hq hsuf => h q hq (hsuf.trans (List.suffix_cons c p)))
    rw [this]
    rfl

theorem gsub_cons_match (m : Matcher) (c : Char) (t out r : Cs)
    (hm : m (c :: t) = some (out, r))
    (hr : ∀ c' t', (c' :: t') <:+ r → m (c' :: t') = none) :
    gsub m (c :: t) = out ++ r := by
  unfold gsub
  rw [List.length_cons, gsubF_cons, hm]
  show out ++ gsubF m t.length r = out ++ r
  rw [gsubF_id m t.length r hr]

theorem gsub_append_match (m : Matcher) (p : Cs) (c : Char) (t out r : Cs)
    (hp : ∀ q, q ≠ [] → q <:+ p → m (q ++ (c :: t)) = none)
    (hm : m (c :: t) = some (out, r))
    (hr : ∀ c' t', (c' :: t') <:+ r → m (c' :: t') = none) :
    gsub m (p ++ (c :: t)) = p ++ (out ++ r) := by
  unfold gsub
  rw [List.length_append, gsubF_append_none m p (c :: t).length (c :: t) hp]
  rw [List.length_cons, gsubF_cons, hm]
  show p ++ (out ++ gsubF m t.length r) = p ++ (out ++ r)
  rw [gsubF_id m t.length r hr]

theorem takeW_cons (p : Char → Bool) (c : Char) (t : Cs) :
    takeW p (c :: t) = if p c then c :: takeW p t else [] := rfl

theorem dropW_cons (p : Char → Bool) (c : Char) (t : Cs) :
    dropW p (c :: t) = if p c then dropW p t else c :: t := rfl

theorem takeW_cons_pos (p : Char → Bool) (c : Char) (t : Cs) (h : p c = true) :
    takeW p (c :: t) = c :: takeW p t := by
  rw [takeW_cons, h]; rfl

theorem takeW_cons_neg (p : Char → Bool) (c : Char) (t : Cs) (h : p c = false) :
    takeW p (c :: t) = [] := by
  rw [takeW_cons, h]; rfl

theorem dropW_cons_pos (p : Char → Bool) (c : Char) (t : Cs) (h : p c = true) :
    dropW p (c :: t) = dropW p t := by
  rw [dropW_cons, h]; rfl

theorem dropW_cons_neg (p : Char → Bool) (c : Char) (t : Cs) (h : p c = false) :
    dropW p (c :: t) = c :: t := by
  rw [dropW_cons, h]; rfl

theorem takeW_append_all (p : Char → Bool) :
    ∀ (a b : Cs), (∀ c ∈ a, p c = true) → takeW p (a ++ b) = a ++ takeW p b := by
  intro a
  induction a with
  | nil => intro b _; rfl
  | cons c a ih =>
    intro b h
    rw [List.cons_append, takeW_cons_pos p c _ (h c (List.mem_cons_self c a)),
      ih b (fun d hd => h d (List.mem_cons_of_mem c hd)), List.cons_append]

theorem dropW_append_all (p : Char → Bool) :
    ∀ (a b : Cs), (∀ c ∈ a, p c = true) → dropW p (a ++ b) = dropW p b := by
  intro a
  induction a with
  | nil => intro b _; rfl
  | cons c a ih =>
    intro b h
    rw [List.cons_append, dropW_cons_pos p c _ (h c (List.mem_cons_self c a)),
      ih b (fun d hd => h d (List.mem_cons_of_mem c hd))]

theorem takeW_all (p : Char → Bool) : ∀ (s : Cs), (∀ c ∈ s, p c = true) → takeW p s = s := by
  intro s
  induction s with
  | nil => intro _; rfl
  | cons c t ih =>
    intro h
    rw [takeW_cons_pos p c t (h c (List.mem_cons_self c t)),
      ih (fun d hd => h d (List.mem_cons_of_mem c hd))]

theorem dropW_all (p : Char → Bool) : ∀ (s : Cs), (∀ c ∈ s, p c = true) → dropW p s = [] := by
  intro s
  induction s with
  | nil => intro _; rfl
  | cons c t ih =>
    intro h
    rw [dropW_cons_pos p c t (h c (List.mem_cons_self c t)),
      ih (fun d hd => h d (List.mem_cons_of_mem c hd))]

theorem dropW_append_ne (p : Char → Bool) :
    ∀ (a b : Cs), dropW p a ≠ [] → dropW p (a ++ b) = dropW p a ++ b := by
  intro a
  induction a with
  | nil => intro b h; cases h rfl
  | cons c a ih =>
    intro b h
    cases hc : p c with
    | true =>
      rw [dropW_cons_pos p c a hc] at h
      rw [List.cons_append, dropW_cons_pos p c _ hc, ih b h, dropW_cons_pos p c a hc]
    | false =>
      rw [List.cons_append, dropW_cons_neg p c _ hc, dropW_cons_neg p c a hc, List.cons_append]

theorem dropW_eq_nil_iff (p : Char → Bool) :
    ∀ s : Cs, dropW p s = [] ↔ ∀ c ∈ s, p c = true := by
  intro s
  induction s with
  | nil => simp [dropW]
  | cons c t ih =>
    cases hc : p c with
    | true =>
      rw [dropW_cons_pos p c t hc, ih]
      constructor
      · intro h d hd
        rcases List.mem_cons.mp hd with rfl | hd
        · exact hc
        · exact h d hd
      · intro h d hd; exact h d (List.mem_cons_of_mem c hd)
    | false =>
      rw [dropW_cons_neg p c t hc]
      constructor
      · intro h; cases h
      · intro h
        have := h c (List.mem_cons_self c t)
        rw [this] at hc; cases hc

theorem dropW_head_neg (p : Char → Bool) :
    ∀ (s : Cs) (c : Char) (t : Cs), dropW p s = c :: t → p c = false := by
  intro s
  induction s with
  | nil => intro c t h; cases h
  | cons d u ih =>
    intro c t h
    cases hd : p d with
    | true => rw [dropW_cons_pos p d u hd] at h; exact ih c t h
    | false =>
      rw [dropW_cons_neg p d u hd] at h
      cases h; exact hd

theorem dropW_id_of_head (p : Char → Bool) (s : Cs)
    (h : ∀ c t, s = c :: t → p c = false) : dropW p s = s := by
  cases s with
  | nil => rfl
  | cons c t => exact dropW_cons_neg p c t (h c t rfl)

theorem dropW_idem (p : Char → Bool) (s : Cs) : dropW p (dropW p s) = dropW p s := by
  refine dropW_id_of_head p _ (fun c t h => ?_)
  exact dropW_head_neg p s c t h

theorem dropW_mem (p : Char → Bool) :
    ∀ (s : Cs) (c : Char), c ∈ dropW p s → c ∈ s := by
  intro s
  induction s with
  | nil => intro c h; cases h
  | cons d u ih =>
    intro c h
    cases hd : p d with
    | true =>
      rw [dropW_cons_pos p d u hd] at h
      exact List.mem_cons_of_mem d (ih c h)
    | false =>
      rw [dropW_cons_neg p d u hd] at h
      exact h

theorem takeW_mem (p : Char → Bool) :
    ∀ (s : Cs) (c : Char), c ∈ takeW p s → p c = true := by
  intro s
  induction s with
  | nil => intro c h; cases h
  | cons d u ih =>
    intro c h
    cases hd : p d with
    | true =>
      rw [takeW_cons_pos p d u hd] at h
      rcases List.mem_cons.mp h with rfl | h
      · exact hd
      · exact ih c h
    | false =>
      rw [takeW_cons_neg p d u hd] at h
      cases h

theorem takeW_append_dropW (p : Char → Bool) :
    ∀ s : Cs, takeW p s ++ dropW p s = s := by
  intro s
  induction s with
  | nil => rfl
  | cons c t ih =>
    cases hc : p c with
    | true => rw [takeW_cons_pos p c t hc, dropW_cons_pos p c t hc, List.cons_append, ih]
    | false => rw [takeW_cons_neg p c t hc, dropW_cons_neg p c t hc]; rfl

theorem findSplit_cons (pat : Cs) (c : Char) (t : Cs) :
    findSplit pat (c :: t) =
      if pfx pat (c :: t) then some ([], (c :: t).drop pat.length)
      else (findSplit pat t).map (fun p => (c :: p.1, p.2)) := rfl

theorem findSplit_cons_pos (pat : Cs) (c : Char) (t : Cs) (h : pfx pat (c :: t) = true) :
    findSplit pat (c :: t) = some ([], (c :: t).drop pat.length) := by
  rw [findSplit_cons, h]; rfl

theorem findSplit_cons_neg (pat : Cs) (c : Char) (t : Cs) (h : pfx pat (c :: t) = false) :
    findSplit pat (c :: t) = (findSplit pat t).map (fun p => (c :: p.1, p.2)) := by
  rw [findSplit_cons, h]; rfl

theorem findSplit_none_of_head (pat : Cs) (a : Char) (hh : pat.head? = some a) :
    ∀ s : Cs, (∀ c ∈ s, ¬(c = a)) → findSplit pat s = none := by
  intro s
  induction s with
  | nil => intro _; rfl
  | cons c t ih =>
    intro h
    rcases pat with _ | ⟨b, p⟩
    · cases hh
    · have hb : b = a := by simpa using hh
      subst hb
      rw [findSplit_cons_neg _ c t
        (pfx_false_head b c p t (fun e => (h c (List.mem_cons_self c t)) e.symm))]
      rw [ih (fun d hd => h d (List.mem_cons_of_mem c hd))]
      rfl

theorem findSplit_append_pat (pat : Cs) (a : Char) (hh : pat.head? = some a) :
    ∀ (b r : Cs), (∀ c ∈ b, ¬(c = a)) → findSplit pat (b ++ (pat ++ r)) = some (b, r) := by
  intro b
  induction b with
  | nil =>
    intro r _
    rcases pat with _ | ⟨x, p⟩
    · cases hh
    · rw [List.nil_append, List.cons_append, findSplit_cons_pos _ x _
        (by rw [← List.cons_append]; exact pfx_append_self (x :: p) r)]
      rw [← List.cons_append, drop_len_append]
  | cons c b ih =>
    intro r h
    rcases pat with _ | ⟨x, p⟩
    · cases hh
    · have hx : x = a := by simpa using hh
      subst hx
      rw [List.cons_append, findSplit_cons_neg _ c _
        (pfx_false_head x c p _ (fun e => (h c (List.mem_cons_self c b)) e.symm))]
      rw [ih r (fun d hd => h d (List.mem_cons_of_mem c hd))]
      rfl

theorem splitF_zero (sep s : Cs) : splitF sep 0 s = [s] := rfl

theorem splitF_succ (sep s : Cs) (f : Nat) :
    splitF sep (f + 1) s =
      match findSplit sep s with
      | none => [s]
      | some p => p.1 :: splitF sep f p.2 := rfl

theorem splitF_of_none (sep s : Cs) (h : findSplit sep s = none) :
    ∀ f, splitF sep f s = [s] := by
  intro f
  cases f with
  | zero => rfl
  | succ f => rw [splitF_succ, h]

theorem splitOn_single (sep : Cs) (a : Char) (hh : sep.head? = some a)
    (s : Cs) (hs : ∀ c ∈ s, ¬(c = a)) : splitOn sep s = [s] :=
  splitF_of_none sep s (findSplit_none_of_head sep a hh s hs) s.length

theorem ic_nil (sep : Cs) : ic sep [] = [] := rfl

theorem ic_single (sep p : Cs) : ic sep [p] = p := rfl

theorem ic_cons2 (sep p q : Cs) (t : List Cs) :
    ic sep (p :: q :: t) = p ++ sep ++ ic sep (q :: t) := rfl

theorem ic_len_ge (sep : Cs) (hsep : sep ≠ []) :
    ∀ parts : List Cs, parts ≠ [] → parts.length ≤ (ic sep parts).length + 1 := by
  intro parts
  induction parts with
  | nil => intro h; cases h rfl
  | cons p rest ih =>
    intro _
    cases rest with
    | nil => simp [ic_single]
    | cons q t =>
      have hr := ih (List.cons_ne_nil q t)
      have hsl : 1 ≤ sep.length := by
        cases sep with
        | nil => cases hsep rfl
        | cons c u => simp
      rw [ic_cons2]
      simp only [List.length_cons, List.length_append] at hr ⊢
      omega

theorem splitF_ic (sep : Cs) (a : Char) (hh : sep.head? = some a) :
    ∀ (parts : List Cs) (f : Nat), parts ≠ [] →
      (∀ q ∈ parts, ∀ c ∈ q, ¬(c = a)) → parts.length ≤ f + 1 →
      splitF sep f (ic sep parts) = parts := by
  intro parts
  induction parts with
  | nil => intro f h; cases h rfl
  | cons p rest ih =>
    intro f _ hq hlen
    cases rest with
    | nil =>
      rw [ic_single]
      exact splitF_of_none sep p
        (findSplit_none_of_head sep a hh p (hq p (List.mem_cons_self p []))) f
    | cons q t =>
      cases f with
      | zero => simp at hlen
      | succ f =>
        rw [ic_cons2, List.append_assoc]
        rw [splitF_succ, findSplit_append_pat sep a hh p (ic sep (q :: t))
          (hq p (List.mem_cons_self p (q :: t)))]
        have := ih f (List.cons_ne_nil q t)
          (fun u hu c hc => hq u (List.mem_cons_of_mem p hu) c hc)
          (by simp only [List.length_cons] at hlen ⊢; omega)
        show p :: splitF sep f (ic sep (q :: t)) = p :: q :: t
        rw [this]

theorem splitOn_ic (sep : Cs) (a : Char) (hh : sep.head? = some a)
    (parts : List Cs) (hne : parts ≠ []) (hq : ∀ q ∈ parts, ∀ c ∈ q, ¬(c = a)) :
    splitOn sep (ic sep parts) = parts := by
  have hsep : sep ≠ [] := by
    intro e; rw [e] at hh; cases hh
  exact splitF_ic sep a hh parts (ic sep parts).length hne hq
    (ic_len_ge sep hsep parts hne)

/-! Lemmas about trimming. -/

theorem trimL_nil : trimL [] = [] := rfl

theorem trimR_nil : trimR [] = [] := rfl

theorem trimL_cons_ws (c : Char) (t : Cs) (h : isWsC c = true) :
    trimL (c :: t) = trimL t := dropW_cons_pos isWsC c t h

theorem trimL_cons_no (c : Char) (t : Cs) (h : isWsC c = false) :
    trimL (c :: t) = c :: t := dropW_cons_neg isWsC c t h

theorem trimL_all_ws (s : Cs) (h : ∀ c ∈ s, isWsC c = true) : trimL s = [] :=
  dropW_all isWsC s h

theorem trimL_idem (s : Cs) : trimL (trimL s) = trimL s := dropW_idem isWsC s

theorem trimL_mem (s : Cs) (c : Char) (h : c ∈ trimL s) : c ∈ s := dropW_mem isWsC s c h

theorem trimR_mem (s : Cs) (c : Char) (h : c ∈ trimR s) : c ∈ s := by
  unfold trimR at h
  rw [List.mem_reverse] at h
  have := dropW_mem isWsC s.reverse c h
  rw [List.mem_reverse] at this
  exact this

theorem trimR_eq_nil_iff (s : Cs) : trimR s = [] ↔ ∀ c ∈ s, isWsC c = true := by
  unfold trimR
  rw [List.reverse_eq_nil_iff, dropW_eq_nil_iff]
  constructor
  · intro h c hc; exact h c (List.mem_reverse.mpr hc)
  · intro h c hc; exact h c (List.mem_reverse.mp hc)

theorem trimR_all_ws (s : Cs) (h : ∀ c ∈ s, isWsC c = true) : trimR s = [] :=
  (trimR_eq_nil_iff s).mpr h

theorem trimR_no_ws (s : Cs) (h : ∀ c ∈ s, isWsC c = false) : trimR s = s := by
  unfold trimR
  rw [dropW_id_of_head isWsC s.reverse (fun c t he => by
    have : c ∈ s.reverse := by rw [he]; exact List.mem_cons_self c t
    exact h c (List.mem_reverse.mp this)), List.reverse_reverse]

theorem trimR_idem (s : Cs) : trimR (trimR s) = trimR s := by
  unfold trimR
  rw [List.reverse_reverse, dropW_idem]

theorem trimL_append (a b : Cs) :
    trimL (a ++ b) = if trimL a = [] then trimL b else trimL a ++ b := by
  induction a with
  | nil => simp [trimL_nil]
  | cons c t ih =>
    cases hc : isWsC c with
    | true =>
      rw [List.cons_append, trimL_cons_ws c _ hc, trimL_cons_ws c t hc, ih]
    | false =>
      rw [List.cons_append, trimL_cons_no c _ hc, trimL_cons_no c t hc]
      have : ¬(c :: t = ([] : Cs)) := List.cons_ne_nil c t
      rw [if_neg this, List.cons_append]

theorem trimR_append (a b : Cs) :
    trimR (a ++ b) = if trimR b = [] then trimR a else a ++ trimR b := by
  unfold trimR
  rw [List.reverse_append]
  by_cases hb : dropW isWsC b.reverse = []
  · have hb' : (dropW isWsC b.reverse).reverse = [] := by rw [hb]; rfl
    rw [if_pos hb', dropW_append_all isWsC b.reverse a.reverse
      ((dropW_eq_nil_iff isWsC b.reverse).mp hb)]
  · have hb' : ¬((dropW isWsC b.reverse).reverse = []) := by
      intro e; exact hb (by rwa [List.reverse_eq_nil_iff] at e)
    rw [if_neg hb', dropW_append_ne isWsC b.reverse a.reverse hb, List.reverse_append,
      List.reverse_reverse]

theorem jsTrim_nil : jsTrim [] = [] := rfl

theorem jsTrim_all_ws (s : Cs) (h : ∀ c ∈ s, isWsC c = true) : jsTrim s = [] := by
  unfold jsTrim
  rw [trimL_all_ws s h, trimR_nil]

theorem jsTrim_trimL (s : Cs) : jsTrim (trimL s) = jsTrim s := by
  unfold jsTrim
  rw [trimL_idem]

theorem jsTrim_mem (s : Cs) (c : Char) (h : c ∈ jsTrim s) : c ∈ s := by
  unfold jsTrim at h
  exact trimL_mem s c (trimR_mem (trimL s) c h)

theorem trimR_cons (c : Char) (t : Cs) :
    trimR (c :: t) = if trimR t = [] then (if isWsC c then [] else [c]) else c :: trimR t := by
  have e : (c :: t).reverse = t.reverse ++ [c] := by simp
  unfold trimR
  rw [e]
  by_cases hb : dropW isWsC t.reverse = []
  · have hb' : (dropW isWsC t.reverse).reverse = [] := by rw [hb]; rfl
    rw [if_pos hb', dropW_append_all isWsC t.reverse [c]
      ((dropW_eq_nil_iff isWsC t.reverse).mp hb)]
    cases hc : isWsC c with
    | true => rw [dropW_cons_pos isWsC c [] hc]; rfl
    | false => rw [dropW_cons_neg isWsC c [] hc]; rfl
  · have hb' : ¬((dropW isWsC t.reverse).reverse = []) := by
      intro e2; exact hb (by rwa [List.reverse_eq_nil_iff] at e2)
    rw [if_neg hb', dropW_append_ne isWsC t.reverse [c] hb, List.reverse_append]
    rfl

theorem trimL_trimR_comm (s : Cs) : trimL (trimR s) = trimR (trimL s) := by
  induction s with
  | nil => rfl
  | cons c t ih =>
    cases hc : isWsC c with
    | true =>
      rw [trimL_cons_ws c t hc, trimR_cons]
      by_cases hb : trimR t = []
      · rw [if_pos hb, if_pos hc, ← ih, hb]
      · rw [if_neg hb, trimL_cons_ws c _ hc, ih]
    | false =>
      rw [trimL_cons_no c t hc, trimR_cons]
      by_cases hb : trimR t = []
      · rw [if_pos hb, if_neg (by rw [hc]; exact Bool.false_ne_true)]
        exact trimL_cons_no c [] hc
      · rw [if_neg hb]
        exact trimL_cons_no c _ hc

theorem jsTrim_trimR (s : Cs) : jsTrim (trimR s) = jsTrim s := by
  unfold jsTrim
  rw [trimL_trimR_comm, trimR_idem]

theorem jsTrim_idem (s : Cs) : jsTrim (jsTrim s) = jsTrim s := by
  unfold jsTrim
  rw [trimL_trimR_comm, trimL_idem, trimR_idem]

/-! Lemmas about separators interleaved between parts, and the interaction
of trimming with splitting. -/

theorem ic_mem (sep : Cs) :
    ∀ (parts : List Cs) (c : Char), c ∈ ic sep parts → c ∈ sep ∨ ∃ q ∈ parts, c ∈ q := by
  intro parts
  induction parts with
  | nil => intro c h; cases h
  | cons p rest ih =>
    intro c h
    cases rest with
    | nil =>
      rw [ic_single] at h
      exact Or.inr ⟨p, List.mem_cons_self p [], h⟩
    | cons q t =>
      rw [ic_cons2, List.append_assoc] at h
      rcases List.mem_append.mp h with hp | hs
      · exact Or.inr ⟨p, List.mem_cons_self p (q :: t), hp⟩
      · rcases List.mem_append.mp hs with hsep | hic
        · exact Or.inl hsep
        · rcases ih c hic with hl | ⟨u, hu, hc⟩
          · exact Or.inl hl
          · exact Or.inr ⟨u, List.mem_cons_of_mem p hu, hc⟩

theorem ic_cons_ne (sep p : Cs) (rest : List Cs) (h : rest ≠ []) :
    ic sep (p :: rest) = p ++ sep ++ ic sep rest := by
  cases rest with
  | nil => cases h rfl
  | cons q t => rw [ic_cons2]

theorem mFirst_cons (f : Cs → Cs) (x : Cs) (xs : List Cs) :
    mFirst f (x :: xs) = f x :: xs := rfl

theorem mLast_single (f : Cs → Cs) (x : Cs) : mLast f [x] = [f x] := rfl

theorem mLast_cons2 (f : Cs → Cs) (x y : Cs) (xs : List Cs) :
    mLast f (x :: y :: xs) = x :: mLast f (y :: xs) := rfl

theorem mFirst_ne_nil (f : Cs → Cs) (parts : List Cs) (h : parts ≠ []) :
    mFirst f parts ≠ [] := by
  cases parts with
  | nil => cases h rfl
  | cons p rest => rw [mFirst_cons]; exact List.cons_ne_nil _ _

theorem mLast_ne_nil (f : Cs → Cs) : ∀ parts : List Cs, parts ≠ [] → mLast f parts ≠ [] := by
  intro parts
  cases parts with
  | nil => intro h; cases h rfl
  | cons p rest =>
    intro _
    cases rest with
    | nil => rw [mLast_single]; exact List.cons_ne_nil _ _
    | cons q t => rw [mLast_cons2]; exact List.cons_ne_nil _ _

theorem trimL_ic (sep : Cs) (a : Char) (hh : sep.head? = some a) (hws : isWsC a = false) :
    ∀ parts : List Cs, parts ≠ [] → trimL (ic sep parts) = ic sep (mFirst trimL parts) := by
  intro parts
  cases parts with
  | nil => intro h; cases h rfl
  | cons p rest =>
    intro _
    cases rest with
    | nil => rw [ic_single, mFirst_cons, ic_single]
    | cons q t =>
      rcases sep with _ | ⟨b, u⟩
      · cases hh
      · have hb : b = a := by simpa using hh
        subst hb
        rw [ic_cons2, mFirst_cons, ic_cons2, List.append_assoc, trimL_append]
        by_cases hp : trimL p = []
        · rw [if_pos hp, hp, List.nil_append, List.cons_append, trimL_cons_no b _ hws]
        · rw [if_neg hp, List.append_assoc]

theorem trimR_ic (sep : Cs) (hsep : sep ≠ []) (hws : ∀ c ∈ sep, isWsC c = false) :
    ∀ parts : List Cs, parts ≠ [] → trimR (ic sep parts) = ic sep (mLast trimR parts) := by
  intro parts
  induction parts with
  | nil => intro h; cases h rfl
  | cons p rest ih =>
    intro _
    cases rest with
    | nil => rw [ic_single, mLast_single, ic_single]
    | cons q t =>
      have hmne : mLast trimR (q :: t) ≠ [] :=
        mLast_ne_nil trimR (q :: t) (List.cons_ne_nil q t)
      rw [ic_cons2, mLast_cons2, ic_cons_ne sep p (mLast trimR (q :: t)) hmne, trimR_append]
      by_cases hq : trimR (ic sep (q :: t)) = []
      · have hallws : ∀ c ∈ ic sep (q :: t), isWsC c = true := (trimR_eq_nil_iff _).mp hq
        have ht : t = [] := by
          cases t with
          | nil => rfl
          | cons r t2 =>
            rcases sep with _ | ⟨b, u⟩
            · cases hsep rfl
            · have hbmem : b ∈ ic (b :: u) (q :: r :: t2) := by
                rw [ic_cons2]
                exact List.mem_append.mpr (Or.inl (List.mem_append.mpr
                  (Or.inr (List.mem_cons_self b u))))
              have h1 := hallws b hbmem
              have h2 := hws b (List.mem_cons_self b u)
              rw [h1] at h2
              cases h2
        subst ht
        rw [ic_single] at hallws
        have hq2 : trimR q = [] := trimR_all_ws q hallws
        rw [if_pos hq, mLast_single, ic_single, hq2, List.append_nil, trimR_append]
        have hsne : ¬(trimR sep = []) := by
          rw [trimR_no_ws sep hws]
          exact hsep
        rw [if_neg hsne, trimR_no_ws sep hws]
      · rw [if_neg hq, ih (List.cons_ne_nil q t), List.append_assoc]

theorem map_jsTrim_mFirst (parts : List Cs) :
    (mFirst trimL parts).map jsTrim = parts.map jsTrim := by
  cases parts with
  | nil => rfl
  | cons p rest =>
    rw [mFirst_cons, List.map_cons, List.map_cons, jsTrim_trimL]

theorem map_jsTrim_mLast : ∀ parts : List Cs,
    (mLast trimR parts).map jsTrim = parts.map jsTrim := by
  intro parts
  induction parts with
  | nil => rfl
  | cons p rest ih =>
    cases rest with
    | nil => rw [mLast_single, List.map_cons, List.map_cons, jsTrim_trimR]
    | cons q t => rw [mLast_cons2, List.map_cons, List.map_cons, ih]

theorem mFirst_chars (f : Cs → Cs) (hf : ∀ s c, c ∈ f s → c ∈ s) (parts : List Cs)
    (P : Char → Prop) (h : ∀ q ∈ parts, ∀ c ∈ q, P c) :
    ∀ q ∈ mFirst f parts, ∀ c ∈ q, P c := by
  cases parts with
  | nil => intro q hq; cases hq
  | cons p rest =>
    rw [mFirst_cons]
    intro q hq c hc
    rcases List.mem_cons.mp hq with rfl | hq
    · exact h p (List.mem_cons_self p rest) c (hf p c hc)
    · exact h q (List.mem_cons_of_mem p hq) c hc

theorem mLast_chars (f : Cs → Cs) (hf : ∀ s c, c ∈ f s → c ∈ s) :
    ∀ (parts : List Cs) (P : Char → Prop), (∀ q ∈ parts, ∀ c ∈ q, P c) →
      ∀ q ∈ mLast f parts, ∀ c ∈ q, P c := by
  intro parts
  induction parts with
  | nil => intro P _ q hq; cases hq
  | cons p rest ih =>
    intro P h
    cases rest with
    | nil =>
      rw [mLast_single]
      intro q hq c hc
      rcases List.mem_cons.mp hq with rfl | hq
      · exact h p (List.mem_cons_self p []) c (hf p c hc)
      · cases hq
    | cons q0 t =>
      rw [mLast_cons2]
      intro q hq c hc
      rcases List.mem_cons.mp hq with rfl | hq
      · exact h q (List.mem_cons_self q _) c hc
      · exact ih P (fun u hu => h u (List.mem_cons_of_mem p hu)) q hq c hc

theorem trimSplit (sep : Cs) (a : Char) (hh : sep.head? = some a)
    (hws : ∀ c ∈ sep, isWsC c = false) (parts : List Cs) (hne : parts ≠ [])
    (hp : ∀ q ∈ parts, ∀ c ∈ q, ¬(c = a)) :
    (splitOn sep (jsTrim (ic sep parts))).map jsTrim = parts.map jsTrim := by
  have hsep : sep ≠ [] := by intro e; rw [e] at hh; cases hh
  have hwa : isWsC a = false := by
    rcases sep with _ | ⟨b, u⟩
    · cases hh
    · have hb : b = a := by simpa using hh
      subst hb
      exact hws b (List.mem_cons_self b u)
  have e1 : jsTrim (ic sep parts) = ic sep (mLast trimR (mFirst trimL parts)) := by
    unfold jsTrim
    rw [trimL_ic sep a hh hwa parts hne,
      trimR_ic sep hsep hws (mFirst trimL parts) (mFirst_ne_nil trimL parts hne)]
  rw [e1]
  rw [splitOn_ic sep a hh (mLast trimR (mFirst trimL parts))
    (mLast_ne_nil trimR (mFirst trimL parts) (mFirst_ne_nil trimL parts hne))
    (mLast_chars trimR trimR_mem (mFirst trimL parts) (fun c => ¬(c = a))
      (mFirst_chars trimL trimL_mem parts (fun c => ¬(c = a)) hp))]
  rw [map_jsTrim_mLast, map_jsTrim_mFirst]

/-! The general row/column structure of matrix rendering. -/

theorem amp_singleton : cs ("&") = ['&'] := rfl

theorem renderMatrix_rows (cls : Cs) (rows : List (List Cs)) (h1 : rows ≠ [])
    (h2 : ∀ r ∈ rows, r ≠ [])
    (h3 : ∀ r ∈ rows, ∀ cell ∈ r, ∀ c ∈ cell, ¬(c = '\\') ∧ ¬(c = '&')) :
    renderMatrixL (ic (cs ("\\\\")) (rows.map (ic (cs ("&"))))) cls =
      cs ("<table class=\"math-matrix ") ++ cls ++ cs ("\"><tbody>") ++
        joinL (rows.map (fun r =>
          cs ("<tr>") ++
            joinL (r.map (fun cell => cs ("<td>") ++ jsTrim cell ++ cs ("</td>"))) ++
          cs ("</tr>"))) ++
        cs ("</tbody></table>") := by
  have houter : (splitOn (cs ("\\\\"))
      (jsTrim (ic (cs ("\\\\")) (rows.map (ic (cs ("&"))))))).map jsTrim =
      (rows.map (ic (cs ("&")))).map jsTrim := by
    refine trimSplit (cs ("\\\\")) '\\' rfl (by decide) _
      (fun e => h1 (List.map_eq_nil_iff.mp e)) ?_
    intro q hq c hc
    rcases List.mem_map.mp hq with ⟨r, hr, rfl⟩
    rcases ic_mem (cs ("&")) r c hc with hsep | ⟨cell, hcell, hcc⟩
    · rw [amp_singleton] at hsep
      rcases List.mem_singleton.mp hsep with rfl
      decide
    · exact (h3 r hr cell hcell c hcc).1
  unfold renderMatrixL
  rw [houter, List.map_map, List.map_map]
  congr 2
  refine congrArg joinL (List.map_congr_left ?_)
  intro r hr
  have hinner : (splitOn (cs ("&")) (jsTrim (ic (cs ("&")) r))).map jsTrim =
      r.map jsTrim := by
    refine trimSplit (cs ("&")) '&' rfl (by decide) r (h2 r hr) ?_
    intro q hq c hc
    exact (h3 r hr q hq c hc).2
  show cs ("<tr>") ++
      joinL (((splitOn (cs ("&")) (jsTrim (ic (cs ("&")) r))).map jsTrim).map
        (fun cell => cs ("<td>") ++ cell ++ cs ("</td>"))) ++ cs ("</tr>") =
    cs ("<tr>") ++
      joinL (r.map (fun cell => cs ("<td>") ++ jsTrim cell ++ cs ("</td>"))) ++ cs ("</tr>")
  rw [hinner, List.map_map]
  rfl

/-! Lemmas about the fraction-argument scanner. -/

theorem bal1F_succ (f : Nat) (s : Cs) :
    bal1F (f + 1) s =
      (match dropW notBrace s with
      | [] => true
      | c :: r =>
        if c == lbr then
          match dropW notBrace r with
          | d :: r2 => if d == rbr then bal1F f r2 else false
          | [] => false
        else false) := rfl

theorem scanAF_succ (f : Nat) (s : Cs) :
    scanAF (f + 1) s =
      (match dropW notBrace s with
      | [] => none
      | c :: r =>
        if c == rbr then some (takeW notBrace s, r)
        else
          match dropW notBrace r with
          | d :: r2 =>
            if d == rbr then
              (scanAF f r2).map
                (fun p => (takeW notBrace s ++ lbr :: (takeW notBrace r ++ rbr :: p.1), p.2))
            else none
          | [] => none) := rfl


theorem bal1F_eq_nil (f : Nat) (s : Cs) (h : dropW notBrace s = []) :
    bal1F (f + 1) s = true := by
  rw [bal1F_succ, h]

theorem bal1F_eq_cons (f : Nat) (s : Cs) (c : Char) (r : Cs) (h : dropW notBrace s = c :: r) :
    bal1F (f + 1) s =
      (if c == lbr then
        match dropW notBrace r with
        | d :: r2 => if d == rbr then bal1F f r2 else false
        | [] => false
      else false) := by
  rw [bal1F_succ, h]

theorem scanAF_eq_cons (f : Nat) (s : Cs) (c : Char) (r : Cs) (h : dropW notBrace s = c :: r) :
    scanAF (f + 1) s =
      (if c == rbr then some (takeW notBrace s, r)
      else
        match dropW notBrace r with
        | d :: r2 =>
          if d == rbr then
            (scanAF f r2).map
              (fun p => (takeW notBrace s ++ lbr :: (takeW notBrace r ++ rbr :: p.1), p.2))
          else none
        | [] => none) := by
  rw [scanAF_succ, h]

theorem bal1F_mono : ∀ (f f' : Nat) (s : Cs), f ≤ f' → bal1F f s = true → bal1F f' s = true := by
  intro f
  induction f with
  | zero => intro f' s _ h; cases h
  | succ f ih =>
    intro f' s hle h
    cases f' with
    | zero => cases Nat.not_succ_le_zero f hle
    | succ f' =>
      cases hdrop : dropW notBrace s with
      | nil => exact bal1F_eq_nil f' s hdrop
      | cons c r =>
        rw [bal1F_eq_cons f s c r hdrop] at h
        rw [bal1F_eq_cons f' s c r hdrop]
        cases hc : c == lbr with
        | false => rw [hc] at h; cases h
        | true =>
          rw [hc] at h
          rw [if_pos rfl] at h ⊢
          cases hdrop2 : dropW notBrace r with
          | nil => rw [hdrop2] at h; cases h
          | cons d r2 =>
            rw [hdrop2] at h
            cases hd : d == rbr with
            | false =>
              change (if d == rbr then bal1F f r2 else false) = true at h
              rw [hd] at h
              cases h
            | true =>
              change (if d == rbr then bal1F f r2 else false) = true at h
              rw [hd, if_pos rfl] at h
              change (if d == rbr then bal1F f' r2 else false) = true
              rw [hd, if_pos rfl]
              exact ih f' r2 (Nat.le_of_succ_le_succ hle) h

theorem scanAF_bal1 :
    ∀ (f : Nat) (s rest : Cs), bal1F f s = true →
      scanAF f (s ++ rbr :: rest) = some (s, rest) := by
  intro f
  induction f with
  | zero => intro s rest h; cases h
  | succ f ih =>
    intro s rest hb
    cases hdrop : dropW notBrace s with
    | nil =>
      have hall : ∀ c ∈ s, notBrace c = true := (dropW_eq_nil_iff notBrace s).mp hdrop
      have hbig : dropW notBrace (s ++ rbr :: rest) = rbr :: rest := by
        rw [dropW_append_all notBrace s _ hall, dropW_cons_neg notBrace rbr rest (by decide)]
      have htake : takeW notBrace (s ++ rbr :: rest) = s := by
        rw [takeW_append_all notBrace s _ hall, takeW_cons_neg notBrace rbr rest (by decide),
          List.append_nil]
      rw [scanAF_eq_cons f (s ++ rbr :: rest) rbr rest hbig,
        if_pos (by decide : (rbr == rbr) = true), htake]
    | cons c r =>
      rw [bal1F_eq_cons f s c r hdrop] at hb
      cases hc : c == lbr with
      | false => rw [hc] at hb; cases hb
      | true =>
        rw [hc, if_pos rfl] at hb
        have hceq : c = lbr := eq_of_beq hc
        subst hceq
        cases hdrop2 : dropW notBrace r with
        | nil => rw [hdrop2] at hb; cases hb
        | cons d r2 =>
          rw [hdrop2] at hb
          change (if d == rbr then bal1F f r2 else false) = true at hb
          cases hd : d == rbr with
          | false => rw [hd] at hb; cases hb
          | true =>
            rw [hd, if_pos rfl] at hb
            have hdeq : d = rbr := eq_of_beq hd
            subst hdeq
            have hs : takeW notBrace s ++ (lbr :: r) = s := by
              rw [← hdrop]; exact takeW_append_dropW notBrace s
            have hr : takeW notBrace r ++ (rbr :: r2) = r := by
              rw [← hdrop2]; exact takeW_append_dropW notBrace r
            have hsat : ∀ x ∈ takeW notBrace s, notBrace x = true :=
              fun x hx => takeW_mem notBrace s x hx
            have hsat2 : ∀ x ∈ takeW notBrace r, notBrace x = true :=
              fun x hx => takeW_mem notBrace r x hx
            have hdec : s ++ rbr :: rest =
                takeW notBrace s ++ lbr ::
                  (takeW notBrace r ++ rbr :: (r2 ++ rbr :: rest)) := by
              conv_lhs => rw [← hs, ← hr]
              simp
            have hbig : dropW notBrace (s ++ rbr :: rest) =
                lbr :: (takeW notBrace r ++ rbr :: (r2 ++ rbr :: rest)) := by
              rw [hdec, dropW_append_all notBrace _ _ hsat,
                dropW_cons_neg notBrace lbr _ (by decide)]
            rw [scanAF_eq_cons f (s ++ rbr :: rest) lbr
              (takeW notBrace r ++ rbr :: (r2 ++ rbr :: rest)) hbig,
              if_neg (by decide : ¬((lbr == rbr) = true))]
            have hbig2 : dropW notBrace (takeW notBrace r ++ rbr :: (r2 ++ rbr :: rest)) =
                rbr :: (r2 ++ rbr :: rest) := by
              rw [dropW_append_all notBrace _ _ hsat2,
                dropW_cons_neg notBrace rbr _ (by decide)]
            rw [hbig2]
            change (if rbr == rbr then
                (scanAF f (r2 ++ rbr :: rest)).map
                  (fun p => (takeW notBrace (s ++ rbr :: rest) ++
                    lbr :: (takeW notBrace (takeW notBrace r ++ rbr :: (r2 ++ rbr :: rest)) ++
                      rbr :: p.1), p.2))
              else none) = some (s, rest)
            rw [if_pos (by decide : (rbr == rbr) = true)]
            have htk1 : takeW notBrace (s ++ rbr :: rest) = takeW notBrace s := by
              rw [hdec, takeW_append_all notBrace _ _ hsat,
                takeW_cons_neg notBrace lbr _ (by decide), List.append_nil]
            have htk2 : takeW notBrace (takeW notBrace r ++ rbr :: (r2 ++ rbr :: rest)) =
                takeW notBrace r := by
              rw [takeW_append_all notBrace _ _ hsat2,
                takeW_cons_neg notBrace rbr _ (by decide), List.append_nil]
            rw [htk1, htk2, ih r2 rest hb]
            have hfin : takeW notBrace s ++ lbr :: (takeW notBrace r ++ rbr :: r2) = s := by
              conv_rhs => rw [← hs, ← hr]
            show some (takeW notBrace s ++ lbr :: (takeW notBrace r ++ rbr :: r2), rest) =
              some (s, rest)
            rw [hfin]

/-! Lemmas about the output-normalization heuristic. -/

theorem containsB_cons_not (pat : Cs) (c : Char) (t : Cs) (h : pfx pat (c :: t) = false) :
    containsB pat (c :: t) = containsB pat t := by
  unfold containsB
  rw [findSplit_cons_neg pat c t h]
  cases hfs : findSplit pat t with
  | none => rfl
  | some p => rfl

theorem containsB_br_popen (s : Cs) :
    containsB (cs ("<br")) (pOpenL ++ s) = containsB (cs ("<br")) s := by
  have e : pOpenL ++ s = '<' :: 'p' :: ' ' :: 'c' :: 'l' :: 'a' :: 's' :: 's' :: '=' ::
      '"' :: 'm' :: 'b' :: '-' :: '4' :: '"' :: '>' :: s := rfl
  have ebr : (cs ("<br") : Cs) = '<' :: 'b' :: ['r'] := rfl
  rw [e, ebr]
  rw [containsB_cons_not _ _ _ (pfx_false_second '<' 'b' 'p' _ _ (by decide))]
  rw [containsB_cons_not _ _ _ (pfx_false_head '<' 'p' _ _ (by decide))]
  rw [containsB_cons_not _ _ _ (pfx_false_head '<' ' ' _ _ (by decide))]
  rw [containsB_cons_not _ _ _ (pfx_false_head '<' 'c' _ _ (by decide))]
  rw [containsB_cons_not _ _ _ (pfx_false_head '<' 'l' _ _ (by decide))]
  rw [containsB_cons_not _ _ _ (pfx_false_head '<' 'a' _ _ (by decide))]
  rw [containsB_cons_not _ _ _ (pfx_false_head '<' 's' _ _ (by decide))]
  rw [containsB_cons_not _ _ _ (pfx_false_head '<' 's' _ _ (by decide))]
  rw [containsB_cons_not _ _ _ (pfx_false_head '<' '=' _ _ (by decide))]
  rw [containsB_cons_not _ _ _ (pfx_false_head '<' '"' _ _ (by decide))]
  rw [containsB_cons_not _ _ _ (pfx_false_head '<' 'm' _ _ (by decide))]
  rw [containsB_cons_not _ _ _ (pfx_false_head '<' 'b' _ _ (by decide))]
  rw [containsB_cons_not _ _ _ (pfx_false_head '<' '-' _ _ (by decide))]
  rw [containsB_cons_not _ _ _ (pfx_false_head '<' '4' _ _ (by decide))]
  rw [containsB_cons_not _ _ _ (pfx_false_head '<' '"' _ _ (by decide))]
  rw [containsB_cons_not _ _ _ (pfx_false_head '<' '>' _ _ (by decide))]

theorem sfxB_popen_eq (w : Cs)
    (hkey : ∀ v2 ∈ w.reverse.tails, v2 ≠ [] → pfx v2 pOpenL.reverse = false) (s : Cs) :
    sfxB w (pOpenL ++ s) = sfxB w s := by
  unfold sfxB
  rw [List.reverse_append]
  cases hb : pfx w.reverse s.reverse with
  | true => rw [pfx_append_mono _ _ _ hb]
  | false =>
    cases hab : pfx w.reverse (s.reverse ++ pOpenL.reverse) with
    | false => rfl
    | true =>
      rcases pfx_append_cases w.reverse s.reverse pOpenL.reverse hab with hl | ⟨v2, hne, hev, hp⟩
      · rw [hl] at hb; cases hb
      · have hsuf : v2 <:+ w.reverse := ⟨s.reverse, hev.symm⟩
        have hkey2 := hkey v2 ((List.mem_tails v2 w.reverse).mpr hsuf) hne
        rw [hkey2] at hp; cases hp

theorem endsBlock_popen (s : Cs) : endsBlock (pOpenL ++ s) = endsBlock s := by
  unfold endsBlock
  rw [sfxB_popen_eq (cs ("</p>")) (by decide) s,
    sfxB_popen_eq (cs ("</div>")) (by decide) s,
    sfxB_popen_eq (cs ("</table>")) (by decide) s]

/-- Claim C9: after all rewrite stages, the normalization step prepends a
paragraph-opening tag exactly when the markup does not begin with a
recognized block-level opening tag (paragraph, heading, division, table),
appends a paragraph-closing tag exactly when the markup does not end with a
recognized block-level closing tag and contains no line-break tag, and
leaves the string unchanged otherwise; the two adjustments are independent,
so the prepended opening never affects the closing test. -/
theorem claim_C9 (s : Cs) :
    (startsBlock s = false → endsBlock s = false → containsB (cs ("<br")) s = false →
      ensureWrappedL s = pOpenL ++ s ++ cs ("</p>")) ∧
    (startsBlock s = false → (endsBlock s = true ∨ containsB (cs ("<br")) s = true) →
      ensureWrappedL s = pOpenL ++ s) ∧
    (startsBlock s = true → endsBlock s = false → containsB (cs ("<br")) s = false →
      ensureWrappedL s = s ++ cs ("</p>")) ∧
    (startsBlock s = true → (endsBlock s = true ∨ containsB (cs ("<br")) s = true) →
      ensureWrappedL s = s) := by
  refine ⟨?_, ?_, ?_, ?_⟩
  · intro hsb heb hbr
    unfold ensureWrappedL
    rw [hsb, if_neg (show ¬(false = true) from Bool.false_ne_true)]
    show (if (!endsBlock (pOpenL ++ s) && !containsB (cs ("<br")) (pOpenL ++ s)) = true then
        (pOpenL ++ s) ++ cs ("</p>") else (pOpenL ++ s)) = pOpenL ++ s ++ cs ("</p>")
    rw [endsBlock_popen, containsB_br_popen, heb, hbr]
    rfl
  · intro hsb hor
    unfold ensureWrappedL
    rw [hsb, if_neg (show ¬(false = true) from Bool.false_ne_true)]
    show (if (!endsBlock (pOpenL ++ s) && !containsB (cs ("<br")) (pOpenL ++ s)) = true then
        (pOpenL ++ s) ++ cs ("</p>") else (pOpenL ++ s)) = pOpenL ++ s
    rw [endsBlock_popen, containsB_br_popen]
    rcases hor with heb | hbr
    · rw [heb]
      rfl
    · rw [hbr]
      simp
  · intro hsb heb hbr
    unfold ensureWrappedL
    rw [hsb, if_pos (show (true = true) from rfl)]
    show (if (!endsBlock s && !containsB (cs ("<br")) s) = true then
        s ++ cs ("</p>") else s) = s ++ cs ("</p>")
    rw [heb, hbr]
    rfl
  · intro hsb hor
    unfold ensureWrappedL
    rw [hsb, if_pos (show (true = true) from rfl)]
    show (if (!endsBlock s && !containsB (cs ("<br")) s) = true then
        s ++ cs ("</p>") else s) = s
    rcases hor with heb | hbr
    · rw [heb]
      rfl
    · rw [hbr]
      simp

/-- Witness for claim C9 at concrete inputs exercising the first and last
cases. -/
theorem claim_C9_witness :
    ensureWrappedL (cs ("x")) = pOpenL ++ cs ("x") ++ cs ("</p>") ∧
    ensureWrappedL (cs ("<p>y</p>")) = cs ("<p>y</p>") := by
  constructor
  · exact (claim_C9 (cs ("x"))).1 (by decide) (by decide) (by decide)
  · exact (claim_C9 (cs ("<p>y</p>"))).2.2.2 (by decide) (Or.inl (by decide))

/-! Stage no-op lemmas: a rewrite pass leaves a string unchanged when the
string contains no occurrence of the pass's trigger character. -/

theorem bool_ne_of (p : Char → Bool) (c d : Char) (hd : p d = false) (h : p c = true) :
    ¬(c = d) := by
  intro e
  rw [e] at h
  rw [h] at hd
  cases hd

theorem chars_append (P : Char → Prop) (a b : Cs)
    (ha : ∀ c ∈ a, P c) (hb : ∀ c ∈ b, P c) : ∀ c ∈ a ++ b, P c := by
  intro c hc
  rcases List.mem_append.mp hc with h | h
  · exact ha c h
  · exact hb c h

theorem gsub_braceCmd_id (pat o1 o2 : Cs) (a : Char) (s : Cs)
    (hh : pat.head? = some a) (hs : ∀ c ∈ s, ¬(c = a)) :
    gsub (braceCmd pat o1 o2) s = s :=
  gsub_litThen_id pat _ a s hh hs

theorem gsub_litM_id (pat out : Cs) (a : Char) (s : Cs)
    (hh : pat.head? = some a) (hs : ∀ c ∈ s, ¬(c = a)) :
    gsub (litM pat out) s = s :=
  gsub_litThen_id pat _ a s hh hs

theorem bbStage_id (s : Cs) (hs : ∀ c ∈ s, ¬(c = '\\')) : bbStage s = s := by
  have key : ∀ (tbl : List (String × String)), ∀ u : Cs, (∀ c ∈ u, ¬(c = '\\')) →
      tbl.foldl (fun acc pr =>
        gsub (litM (cs ("\\mathbb\x7b") ++ pr.1.data ++ [rbr])
          (cs ("<span class=\"math-bb\">") ++ pr.2.data ++ cs ("</span>"))) acc) u = u := by
    intro tbl
    induction tbl with
    | nil => intro u _; rfl
    | cons hd tl ih =>
      intro u hu
      rw [List.foldl_cons,
        gsub_litM_id (cs ("\\mathbb\x7b") ++ hd.1.data ++ [rbr]) _ '\\' u rfl hu]
      exact ih u hu
  exact key BLACKBOARD_BOLD s hs

theorem symbolStage_id (s : Cs) (hs : ∀ c ∈ s, ¬(c = '\\')) : symbolStage s = s := by
  have key : ∀ (tbl : List (String × String)), (∀ pr ∈ tbl, pr.1.data.head? = some '\\') →
      ∀ u : Cs, (∀ c ∈ u, ¬(c = '\\')) →
      tbl.foldl (fun acc pr => gsub (litM pr.1.data pr.2.data) acc) u = u := by
    intro tbl
    induction tbl with
    | nil => intro _ u _; rfl
    | cons hd tl ih =>
      intro htbl u hu
      rw [List.foldl_cons,
        gsub_litM_id _ _ '\\' u (htbl hd (List.mem_cons_self hd tl)) hu]
      exact ih (fun pr hpr => htbl pr (List.mem_cons_of_mem hd hpr)) u hu
  exact key SYMBOL_REPLACEMENTS (by decide) s hs

theorem funcStage_id (s : Cs) (hs : ∀ c ∈ s, ¬(c = '\\')) : funcStage s = s := by
  have key : ∀ (tbl : List String), ∀ u : Cs, (∀ c ∈ u, ¬(c = '\\')) →
      tbl.foldl (fun acc f =>
        gsub (litM ('\\' :: f.data)
          (cs ("<span class=\"math-func\">") ++ f.data ++ cs ("</span>"))) acc) u = u := by
    intro tbl
    induction tbl with
    | nil => intro u _; rfl
    | cons hd tl ih =>
      intro u hu
      rw [List.foldl_cons, gsub_litM_id ('\\' :: hd.data) _ '\\' u rfl hu]
      exact ih u hu
  exact key mathFunctions s hs

theorem markLine_id (mark o1 o2 : Cs) (a : Char) (line : Cs) (hh : mark.head? = some a)
    (hl : ∀ d t, line = d :: t → ¬(d = a)) : markLine mark o1 o2 line = line := by
  rcases mark with _ | ⟨b, p⟩
  · cases hh
  · have hb : b = a := by simpa using hh
    subst hb
    cases line with
    | nil =>
      unfold markLine
      rw [pfx_cons_nil]
      rfl
    | cons d t =>
      unfold markLine
      rw [pfx_false_head b d p t (fun e => (hl d t rfl) e.symm)]
      rfl

theorem numLine_id (line : Cs) (h : ∀ c ∈ line, ¬(c = '.')) : numLine line = line := by
  unfold numLine
  cases hds : takeW Char.isDigit line with
  | nil => rfl
  | cons d ds =>
    cases hr : dropW Char.isDigit line with
    | nil => rfl
    | cons e r =>
      have he : ¬('.' = e) := by
        have hmem : e ∈ dropW Char.isDigit line := by
          rw [hr]; exact List.mem_cons_self e r
        intro x
        exact (h e (dropW_mem Char.isDigit line e hmem)) x.symm
      show (if (!List.isEmpty (d :: ds) && pfx (cs (". ")) (e :: r) &&
          !(List.drop 2 (e :: r)).isEmpty) = true then
          cs ("<li class=\"ml-6 mb-2 list-decimal\">") ++ List.drop 2 (e :: r) ++ cs ("</li>")
        else line) = line
      rw [show (cs (". ") : Cs) = '.' :: [' '] from rfl, pfx_false_head '.' e [' '] r he]
      rfl

theorem mapLines_id (f : Cs → Cs) (s : Cs) (hnl : ∀ c ∈ s, ¬(c = '\n'))
    (hf : f s = s) : mapLines f s = s := by
  unfold mapLines
  rw [splitOn_single (cs ("\n")) '\n' rfl s hnl, List.map_cons, List.map_nil, hf, ic_single]

/-! Character-class implications and firing lemmas: a matcher applied at an
occurrence of its pattern produces its replacement. -/

theorem inert_pass (c : Char) (h : inert3 c = true) : passChar c = true := by
  unfold inert3 at h
  unfold passChar
  rcases (Bool.or_eq_true _ _).mp h with h12 | h3
  · rcases (Bool.or_eq_true _ _).mp h12 with h1 | h2
    · simp only [h1, Bool.true_or, Bool.or_true]
    · simp only [h2, Bool.true_or, Bool.or_true]
  · simp only [h3, Bool.true_or, Bool.or_true]

theorem pass_calm (c : Char) (h : passChar c = true) : calmChar c = true := by
  unfold calmChar
  rw [h]
  rfl

theorem inert_calm (c : Char) (h : inert3 c = true) : calmChar c = true :=
  pass_calm c (inert_pass c h)

theorem notRbr_of_ne (c : Char) (h : ¬(c = rbr)) : notRbr c = true := by
  unfold notRbr
  rw [beq_eq_false_iff_ne.mpr h]
  rfl

theorem notDollar_of_ne (c : Char) (h : ¬(c = '$')) : notDollar c = true := by
  unfold notDollar
  rw [beq_eq_false_iff_ne.mpr h]
  rfl

theorem braceCmd_capture (pat o1 o2 X rest : Cs) (hne : X ≠ [])
    (hX : ∀ c ∈ X, notRbr c = true) :
    braceCmd pat o1 o2 (pat ++ (X ++ rbr :: rest)) = some (o1 ++ X ++ o2, rest) := by
  rcases X with _ | ⟨x, X⟩
  · cases hne rfl
  · unfold braceCmd litThen
    rw [pfx_append_self pat ((x :: X) ++ rbr :: rest), if_pos (show (true = true) from rfl),
      drop_len_append]
    show (if (takeW notRbr ((x :: X) ++ rbr :: rest)).isEmpty then none
      else
        match dropW notRbr ((x :: X) ++ rbr :: rest) with
        | c :: rest2 =>
          if c == rbr then some (o1 ++ takeW notRbr ((x :: X) ++ rbr :: rest) ++ o2, rest2)
          else none
        | [] => none) = some (o1 ++ (x :: X) ++ o2, rest)
    have ht : takeW notRbr ((x :: X) ++ rbr :: rest) = x :: X := by
      rw [takeW_append_all notRbr (x :: X) _ hX, takeW_cons_neg notRbr rbr rest (by decide),
        List.append_nil]
    have hd : dropW notRbr ((x :: X) ++ rbr :: rest) = rbr :: rest := by
      rw [dropW_append_all notRbr (x :: X) _ hX, dropW_cons_neg notRbr rbr rest (by decide)]
    rw [ht, hd]
    rfl

theorem digit_fire (pat o1 o2 D rest : Cs) (hne : D ≠ [])
    (hD : ∀ c ∈ D, Char.isDigit c = true)
    (hrest : ∀ c t, rest = c :: t → Char.isDigit c = false) :
    litThen pat (fun r =>
      let ds := takeW Char.isDigit r
      if ds.isEmpty then none
      else some (o1 ++ ds ++ o2, dropW Char.isDigit r)) (pat ++ (D ++ rest)) =
    some (o1 ++ D ++ o2, rest) := by
  rcases D with _ | ⟨d, D⟩
  · cases hne rfl
  · unfold litThen
    rw [pfx_append_self pat ((d :: D) ++ rest), if_pos (show (true = true) from rfl),
      drop_len_append]
    show (if (takeW Char.isDigit ((d :: D) ++ rest)).isEmpty then none
      else some (o1 ++ takeW Char.isDigit ((d :: D) ++ rest) ++ o2,
        dropW Char.isDigit ((d :: D) ++ rest))) = some (o1 ++ (d :: D) ++ o2, rest)
    have hz : takeW Char.isDigit rest = [] := by
      rcases rest with _ | ⟨e, t⟩
      · rfl
      · exact takeW_cons_neg Char.isDigit e t (hrest e t rfl)
    have ht : takeW Char.isDigit ((d :: D) ++ rest) = d :: D := by
      rw [takeW_append_all Char.isDigit (d :: D) _ hD, hz, List.append_nil]
    have hd2 : dropW Char.isDigit ((d :: D) ++ rest) = rest := by
      rw [dropW_append_all Char.isDigit (d :: D) _ hD]
      exact dropW_id_of_head Char.isDigit rest hrest
    rw [ht, hd2]
    rfl

theorem mathDisplayDollar_fire (body post : Cs) (hne : body ≠ [])
    (hb : ∀ c ∈ body, notDollar c = true) :
    mathDisplayDollar (cs ("$$") ++ (body ++ (cs ("$$") ++ post))) =
      some (cs ("<div class=\"math-display\">") ++ body ++ cs ("</div>"), post) := by
  rcases body with _ | ⟨b, body⟩
  · cases hne rfl
  · unfold mathDisplayDollar litThen
    rw [pfx_append_self (cs ("$$")) ((b :: body) ++ (cs ("$$") ++ post)),
      if_pos (show (true = true) from rfl), drop_len_append]
    show (if (takeW notDollar ((b :: body) ++ (cs ("$$") ++ post))).isEmpty then none
      else
        if pfx (cs ("$$")) (dropW notDollar ((b :: body) ++ (cs ("$$") ++ post))) then
          some (cs ("<div class=\"math-display\">") ++
            takeW notDollar ((b :: body) ++ (cs ("$$") ++ post)) ++ cs ("</div>"),
            (dropW notDollar ((b :: body) ++ (cs ("$$") ++ post))).drop 2)
        else none) =
      some (cs ("<div class=\"math-display\">") ++ (b :: body) ++ cs ("</div>"), post)
    have ht : takeW notDollar ((b :: body) ++ (cs ("$$") ++ post)) = b :: body := by
      rw [takeW_append_all notDollar (b :: body) _ hb,
        show (cs ("$$") ++ post : Cs) = '$' :: ('$' :: post) from rfl,
        takeW_cons_neg notDollar '$' ('$' :: post) (by decide), List.append_nil]
    have hd : dropW notDollar ((b :: body) ++ (cs ("$$") ++ post)) = cs ("$$") ++ post := by
      rw [dropW_append_all notDollar (b :: body) _ hb,
        show (cs ("$$") ++ post : Cs) = '$' :: ('$' :: post) from rfl,
        dropW_cons_neg notDollar '$' ('$' :: post) (by decide)]
    rw [ht, hd, pfx_append_self (cs ("$$")) post, if_pos (show (true = true) from rfl),
      show ((cs ("$$") ++ post : Cs)).drop 2 = post from rfl]
    rfl

theorem fracNested_fire (cmd num den rest : Cs) (hn : bal1 num = true)
    (hd : bal1 den = true) :
    fracNested cmd (cmd ++ (num ++ rbr :: (lbr :: (den ++ rbr :: rest)))) =
      some (fracOut num den, rest) := by
  unfold fracNested litThen
  rw [pfx_append_self cmd (num ++ rbr :: (lbr :: (den ++ rbr :: rest))),
    if_pos (show (true = true) from rfl), drop_len_append]
  have h1 : scanAF ((num ++ rbr :: (lbr :: (den ++ rbr :: rest))).length + 1)
      (num ++ rbr :: (lbr :: (den ++ rbr :: rest))) =
      some (num, lbr :: (den ++ rbr :: rest)) := by
    refine scanAF_bal1 _ num (lbr :: (den ++ rbr :: rest)) ?_
    refine bal1F_mono (num.length + 1) _ num ?_ hn
    rw [List.length_append]
    omega
  have h2 : scanAF ((den ++ rbr :: rest).length + 1) (den ++ rbr :: rest) =
      some (den, rest) := by
    refine scanAF_bal1 _ den rest ?_
    refine bal1F_mono (den.length + 1) _ den ?_ hd
    rw [List.length_append]
    omega
  show (match scanAF ((num ++ rbr :: (lbr :: (den ++ rbr :: rest))).length + 1)
      (num ++ rbr :: (lbr :: (den ++ rbr :: rest))) with
    | none => none
    | some p =>
      match p.2 with
      | c :: r2 =>
        if c == lbr then
          match scanAF (r2.length + 1) r2 with
          | none => none
          | some q => some (fracOut p.1 q.1, q.2)
        else none
      | [] => none) = some (fracOut num den, rest)
  rw [h1]
  show (if lbr == lbr then
      match scanAF ((den ++ rbr :: rest).length + 1) (den ++ rbr :: rest) with
      | none => none
      | some q => some (fracOut num q.1, q.2)
    else none) = some (fracOut num den, rest)
  rw [if_pos (show (lbr == lbr) = true by decide), h2]


/-- Every rewrite stage after the doubled-dollar display rewrite leaves a
string of calm characters unchanged, provided its first character is not a
heading or list-item marker. -/
theorem stages_tail_id (s : Cs) (hcalm : ∀ c ∈ s, calmChar c = true)
    (hhd : ∀ c t, s = c :: t → ¬(c = '#') ∧ ¬(c = '-')) :
    mapLines numLine (mapLines liLine (mapLines h1Line (mapLines h2Line (mapLines h3Line (gsub brM (gsub paraM (gsub italM (gsub boldM (gsub textitM (gsub textbfM (gsub subBraceM (gsub subDigitM (gsub supBraceM (gsub supDigitM (funcStage (symbolStage (gsub sqrtIdxM (gsub sqrtM (bbStage (gsub (fracSimple (cs ("\\frac\x7b"))) (gsub (fracSimple (cs ("\\dfrac\x7b"))) (gsub (fracNested (cs ("\\frac\x7b"))) (gsub (fracNested (cs ("\\dfrac\x7b"))) (gsub (envMatrix (cs ("Vmatrix")) (cs ("math-Vmatrix"))) (gsub (envMatrix (cs ("vmatrix")) (cs ("math-vmatrix"))) (gsub (envMatrix (cs ("matrix")) (cs (""))) (gsub (envMatrix (cs ("bmatrix")) (cs ("math-bmatrix"))) (gsub (envMatrix (cs ("pmatrix")) (cs ("math-pmatrix"))) (gsub ddotM (gsub dotM (gsub vecM (gsub tildeM (gsub hatM (gsub underlineM (gsub overlineM (gsub mathInlineDollar s)))))))))))))))))))))))))))))))))))) = s := by
  have hbs : ∀ c ∈ s, ¬(c = '\\') := fun c hc => bool_ne_of calmChar c '\\' (by decide) (hcalm c hc)
  have hcar : ∀ c ∈ s, ¬(c = '^') := fun c hc => bool_ne_of calmChar c '^' (by decide) (hcalm c hc)
  have hun : ∀ c ∈ s, ¬(c = '_') := fun c hc => bool_ne_of calmChar c '_' (by decide) (hcalm c hc)
  have hst : ∀ c ∈ s, ¬(c = '*') := fun c hc => bool_ne_of calmChar c '*' (by decide) (hcalm c hc)
  have hnl : ∀ c ∈ s, ¬(c = '\n') := fun c hc => bool_ne_of calmChar c '\n' (by decide) (hcalm c hc)
  have hdot : ∀ c ∈ s, ¬(c = '.') := fun c hc => bool_ne_of calmChar c '.' (by decide) (hcalm c hc)
  have e4 : gsub mathInlineDollar s = s := gsub_litThen_id (cs ("$")) _ '$' s rfl
    (fun c hc => bool_ne_of calmChar c '$' (by decide) (hcalm c hc))
  have e5 : gsub overlineM s = s := by
    unfold overlineM
    exact gsub_braceCmd_id (cs ("\\overline\x7b")) _ _ '\\' s rfl hbs
  have e6 : gsub underlineM s = s := by
    unfold underlineM
    exact gsub_braceCmd_id (cs ("\\underline\x7b")) _ _ '\\' s rfl hbs
  have e7 : gsub hatM s = s := by
    unfold hatM
    exact gsub_braceCmd_id (cs ("\\hat\x7b")) _ _ '\\' s rfl hbs
  have e8 : gsub tildeM s = s := by
    unfold tildeM
    exact gsub_braceCmd_id (cs ("\\tilde\x7b")) _ _ '\\' s rfl hbs
  have e9 : gsub vecM s = s := by
    unfold vecM
    exact gsub_braceCmd_id (cs ("\\vec\x7b")) _ _ '\\' s rfl hbs
  have e10 : gsub dotM s = s := by
    unfold dotM
    exact gsub_braceCmd_id (cs ("\\dot\x7b")) _ _ '\\' s rfl hbs
  have e11 : gsub ddotM s = s := by
    unfold ddotM
    exact gsub_braceCmd_id (cs ("\\ddot\x7b")) _ _ '\\' s rfl hbs
  have e12 : gsub (envMatrix (cs ("pmatrix")) (cs ("math-pmatrix"))) s = s := gsub_litThen_id (cs ("\\begin\x7b") ++ cs ("pmatrix") ++ [rbr]) _ '\\' s rfl hbs
  have e13 : gsub (envMatrix (cs ("bmatrix")) (cs ("math-bmatrix"))) s = s := gsub_litThen_id (cs ("\\begin\x7b") ++ cs ("bmatrix") ++ [rbr]) _ '\\' s rfl hbs
  have e14 : gsub (envMatrix (cs ("matrix")) (cs (""))) s = s := gsub_litThen_id (cs ("\\begin\x7b") ++ cs ("matrix") ++ [rbr]) _ '\\' s rfl hbs
  have e15 : gsub (envMatrix (cs ("vmatrix")) (cs ("math-vmatrix"))) s = s := gsub_litThen_id (cs ("\\begin\x7b") ++ cs ("vmatrix") ++ [rbr]) _ '\\' s rfl hbs
  have e16 : gsub (envMatrix (cs ("Vmatrix")) (cs ("math-Vmatrix"))) s = s := gsub_litThen_id (cs ("\\begin\x7b") ++ cs ("Vmatrix") ++ [rbr]) _ '\\' s rfl hbs
  have e17 : gsub (fracNested (cs ("\\dfrac\x7b"))) s = s := gsub_litThen_id (cs ("\\dfrac\x7b")) _ '\\' s rfl hbs
  have e18 : gsub (fracNested (cs ("\\frac\x7b"))) s = s := gsub_litThen_id (cs ("\\frac\x7b")) _ '\\' s rfl hbs
  have e19 : gsub (fracSimple (cs ("\\dfrac\x7b"))) s = s := gsub_litThen_id (cs ("\\dfrac\x7b")) _ '\\' s rfl hbs
  have e20 : gsub (fracSimple (cs ("\\frac\x7b"))) s = s := gsub_litThen_id (cs ("\\frac\x7b")) _ '\\' s rfl hbs
  have e21 : bbStage s = s := bbStage_id s hbs
  have e22 : gsub sqrtM s = s := by
    unfold sqrtM
    exact gsub_braceCmd_id (cs ("\\sqrt\x7b")) _ _ '\\' s rfl hbs
  have e23 : gsub sqrtIdxM s = s := gsub_litThen_id (cs ("\\sqrt[")) _ '\\' s rfl hbs
  have e24 : symbolStage s = s := symbolStage_id s hbs
  have e25 : funcStage s = s := funcStage_id s hbs
  have e26 : gsub supDigitM s = s := gsub_litThen_id (cs ("^")) _ '^' s rfl hcar
  have e27 : gsub supBraceM s = s := by
    unfold supBraceM
    exact gsub_braceCmd_id (cs ("^\x7b")) _ _ '^' s rfl hcar
  have e28 : gsub subDigitM s = s := gsub_litThen_id (cs ("_")) _ '_' s rfl hun
  have e29 : gsub subBraceM s = s := by
    unfold subBraceM
    exact gsub_braceCmd_id (cs ("_\x7b")) _ _ '_' s rfl hun
  have e30 : gsub textbfM s = s := by
    unfold textbfM
    exact gsub_braceCmd_id (cs ("\\textbf\x7b")) _ _ '\\' s rfl hbs
  have e31 : gsub textitM s = s := by
    unfold textitM
    exact gsub_braceCmd_id (cs ("\\textit\x7b")) _ _ '\\' s rfl hbs
  have e32 : gsub boldM s = s := gsub_litThen_id (cs ("**")) _ '*' s rfl hst
  have e33 : gsub italM s = s := gsub_litThen_id (cs ("*")) _ '*' s rfl hst
  have e34 : gsub paraM s = s := gsub_litThen_id (cs ("\n")) _ '\n' s rfl hnl
  have e35 : gsub brM s = s := by
    unfold brM
    exact gsub_litM_id (cs ("\\\\")) _ '\\' s rfl hbs
  have e36 : mapLines h3Line s = s := mapLines_id h3Line s hnl (markLine_id (cs ("### ")) _ _ '#' s rfl (fun d t ht => (hhd d t ht).1))
  have e37 : mapLines h2Line s = s := mapLines_id h2Line s hnl (markLine_id (cs ("## ")) _ _ '#' s rfl (fun d t ht => (hhd d t ht).1))
  have e38 : mapLines h1Line s = s := mapLines_id h1Line s hnl (markLine_id (cs ("# ")) _ _ '#' s rfl (fun d t ht => (hhd d t ht).1))
  have e39 : mapLines liLine s = s := mapLines_id liLine s hnl (markLine_id (cs ("- ")) _ _ '-' s rfl (fun d t ht => (hhd d t ht).2))
  have e40 : mapLines numLine s = s := mapLines_id numLine s hnl (numLine_id s hdot)
  rw [e4, e5, e6, e7, e8, e9, e10, e11, e12, e13, e14, e15, e16, e17, e18, e19, e20, e21, e22, e23, e24, e25, e26, e27, e28, e29, e30, e31, e32, e33, e34, e35, e36, e37, e38, e39, e40]

/-- The whole pipeline leaves a string of calm characters unchanged when its
first character is not a heading or list-item marker. -/
theorem renderLaTeXL_calm_id (s : Cs) (hcalm : ∀ c ∈ s, calmChar c = true)
    (hhd : ∀ c t, s = c :: t → ¬(c = '#') ∧ ¬(c = '-')) :
    renderLaTeXL s = s := by
  have hbs : ∀ c ∈ s, ¬(c = '\\') := fun c hc => bool_ne_of calmChar c '\\' (by decide) (hcalm c hc)
  have hdl : ∀ c ∈ s, ¬(c = '$') := fun c hc => bool_ne_of calmChar c '$' (by decide) (hcalm c hc)
  have e1 : gsub mathDisplayBracket s = s := gsub_litThen_id (cs ("\\[")) _ '\\' s rfl hbs
  have e2 : gsub mathInlineParen s = s := gsub_litThen_id (cs ("\\(")) _ '\\' s rfl hbs
  have e3 : gsub mathDisplayDollar s = s := gsub_litThen_id (cs ("$$")) _ '$' s rfl hdl
  simp only [renderLaTeXL]
  rw [e1, e2, e3]
  exact stages_tail_id s hcalm hhd

/-! The claims, one theorem each, with witnesses at concrete inputs and,
for the corrected claims, concrete counterexamples to the original wording. -/

set_option maxRecDepth 200000
set_option maxHeartbeats 1600000

/-- Claim C1 (corrected): the concrete nested input renders with the inner
fraction complete inside the outer numerator, and the brace-balanced fraction
pattern captures any argument whose nesting depth is at most one.  The
original claim's stronger wording (arguments of arbitrary balanced nesting
are captured whole) is refuted separately: the pattern tracks exactly one
level of nesting. -/
theorem claim_C1 :
    renderLaTeX ("\\frac\x7b\\frac\x7ba\x7d\x7bb\x7d\x7d\x7bc\x7d") =
      ("<span class=\"math-frac\"><span class=\"math-num\"><span class=\"math-frac\"><span class=\"math-num\">a</span><span class=\"math-den\">b</span></span></span><span class=\"math-den\">c</span></span>") ∧
    (∀ num den rest : Cs, bal1 num = true → bal1 den = true →
      fracNested (cs ("\\frac\x7b"))
        (cs ("\\frac\x7b") ++ (num ++ rbr :: (lbr :: (den ++ rbr :: rest)))) =
      some (fracOut num den, rest)) := by
  constructor
  · decide
  · intro num den rest hn hd
    exact fracNested_fire (cs ("\\frac\x7b")) num den rest hn hd

/-- Witness for claim C1 at a concrete singly-nested argument pair. -/
theorem claim_C1_witness :
    fracNested (cs ("\\frac\x7b"))
      (cs ("\\frac\x7b") ++ (cs ("a\x7bb\x7dc") ++ rbr :: (lbr :: (cs ("d") ++ rbr :: cs ("!"))))) =
      some (fracOut (cs ("a\x7bb\x7dc")) (cs ("d")), cs ("!")) :=
  claim_C1.2 (cs ("a\x7bb\x7dc")) (cs ("d")) (cs ("!")) (by decide) (by decide)

/-- Counterexample to claim C1's general wording: a numerator with two levels
of balanced nesting is truncated at an inner closing brace, and the full
numerator text appears nowhere in the output. -/
theorem claim_C1_counterexample :
    renderLaTeX ("\\frac\x7ba\x7bb\x7bc\x7d\x7bd\x7de\x7df\x7d\x7bg\x7d") =
      ("<span class=\"math-frac\"><span class=\"math-num\">a\x7bb\x7bc</span><span class=\"math-den\">d</span></span>e\x7df\x7d\x7bg\x7d") ∧
    containsB (cs ("a\x7bb\x7bc\x7d\x7bd\x7de\x7df"))
      (cs ("<span class=\"math-frac\"><span class=\"math-num\">a\x7bb\x7bc</span><span class=\"math-den\">d</span></span>e\x7df\x7d\x7bg\x7d")) = false := by
  decide

/-- Claim C2 (refuted, code bug): the symbol table is applied as plain
literal replacement in table order with no boundary check, so an entry that
is a strict prefix of a later command rewrites the prefix and leaves stray
suffix letters; the shorter command alone still works. -/
theorem claim_C2 :
    renderLaTeX ("\\infty") = ("∈fty") ∧
    renderLaTeX ("\\top") = ("→p") ∧
    renderLaTeX ("\\subseteq") = ("⊂eq") ∧
    renderLaTeX ("\\supseteq") = ("⊃eq") ∧
    renderLaTeX ("x \\in A") = ("x ∈ A") := by
  decide

/-- Claim C3 (confirmed): a doubled-dollar span with a nonempty dollar-free
body is rewritten by the display stage, which runs before the inline stage,
into exactly one display block; on the concrete instance no inline wrapper
class and no dollar character remains in the output. -/
theorem claim_C3 :
    (∀ pre body post : Cs, body ≠ [] →
      (∀ c ∈ pre, inert3 c = true) → (∀ c ∈ body, inert3 c = true) →
      (∀ c ∈ post, inert3 c = true) →
      renderLaTeXL (pre ++ (cs ("$$") ++ (body ++ (cs ("$$") ++ post)))) =
        pre ++ (cs ("<div class=\"math-display\">") ++ (body ++ (cs ("</div>") ++ post)))) ∧
    renderLaTeX ("a$$x+y$$b") = ("a<div class=\"math-display\">x+y</div>b") ∧
    containsB (cs ("math-inline")) (cs ("a<div class=\"math-display\">x+y</div>b")) = false ∧
    (∀ c ∈ cs ("a<div class=\"math-display\">x+y</div>b"), ¬(c = '$')) := by
  refine ⟨?_, by decide, by decide, by decide⟩
  intro pre body post hbne hpre hbody hpost
  have hpre1 : ∀ c ∈ pre, ¬(c = '\\') :=
    fun c hc => bool_ne_of inert3 c '\\' (by decide) (hpre c hc)
  have hbody1 : ∀ c ∈ body, ¬(c = '\\') :=
    fun c hc => bool_ne_of inert3 c '\\' (by decide) (hbody c hc)
  have hpost1 : ∀ c ∈ post, ¬(c = '\\') :=
    fun c hc => bool_ne_of inert3 c '\\' (by decide) (hpost c hc)
  have hds : ∀ c ∈ (cs ("$$") : Cs), ¬(c = '\\') := by decide
  have hIbs : ∀ c ∈ pre ++ (cs ("$$") ++ (body ++ (cs ("$$") ++ post))), ¬(c = '\\') :=
    chars_append _ _ _ hpre1 (chars_append _ _ _ hds
      (chars_append _ _ _ hbody1 (chars_append _ _ _ hds hpost1)))
  have hbnd : ∀ c ∈ body, notDollar c = true :=
    fun c hc => notDollar_of_ne c (bool_ne_of inert3 c '$' (by decide) (hbody c hc))
  have hp3 : ∀ q, q ≠ [] → q <:+ pre →
      mathDisplayDollar (q ++ ('$' :: ('$' :: (body ++ (cs ("$$") ++ post))))) = none := by
    intro q hq hsuf
    rcases q with _ | ⟨c, t⟩
    · cases hq rfl
    · exact litThen_none_of_head (cs ("$$")) _ '$' c
        (t ++ ('$' :: ('$' :: (body ++ (cs ("$$") ++ post))))) rfl
        (bool_ne_of inert3 c '$' (by decide) (hpre c (hsuf.subset (List.mem_cons_self c t))))
  have hm3 := mathDisplayDollar_fire body post hbne hbnd
  have hr3 : ∀ c' t', (c' :: t') <:+ post → mathDisplayDollar (c' :: t') = none := by
    intro c' t' hsuf
    exact litThen_none_of_head (cs ("$$")) _ '$' c' t' rfl
      (bool_ne_of inert3 c' '$' (by decide) (hpost c' (hsuf.subset (List.mem_cons_self c' t'))))
  have e1 : gsub mathDisplayBracket (pre ++ (cs ("$$") ++ (body ++ (cs ("$$") ++ post)))) =
      pre ++ (cs ("$$") ++ (body ++ (cs ("$$") ++ post))) :=
    gsub_litThen_id (cs ("\\[")) _ '\\' _ rfl hIbs
  have e2 : gsub mathInlineParen (pre ++ (cs ("$$") ++ (body ++ (cs ("$$") ++ post)))) =
      pre ++ (cs ("$$") ++ (body ++ (cs ("$$") ++ post))) :=
    gsub_litThen_id (cs ("\\(")) _ '\\' _ rfl hIbs
  have e3 : gsub mathDisplayDollar (pre ++ (cs ("$$") ++ (body ++ (cs ("$$") ++ post)))) =
      pre ++ (cs ("<div class=\"math-display\">") ++ (body ++ (cs ("</div>") ++ post))) := by
    have step := gsub_append_match mathDisplayDollar pre '$'
      ('$' :: (body ++ (cs ("$$") ++ post)))
      (cs ("<div class=\"math-display\">") ++ body ++ cs ("</div>")) post hp3 hm3 hr3
    calc gsub mathDisplayDollar (pre ++ (cs ("$$") ++ (body ++ (cs ("$$") ++ post))))
        = pre ++ ((cs ("<div class=\"math-display\">") ++ body ++ cs ("</div>")) ++ post) := step
      _ = pre ++ (cs ("<div class=\"math-display\">") ++ (body ++ (cs ("</div>") ++ post))) := by
          simp [List.append_assoc]
  have hR : ∀ c ∈ pre ++ (cs ("<div class=\"math-display\">") ++
      (body ++ (cs ("</div>") ++ post))), calmChar c = true := by
    refine chars_append _ _ _ (fun c hc => inert_calm c (hpre c hc)) ?_
    refine chars_append _ _ _ (by decide) ?_
    refine chars_append _ _ _ (fun c hc => inert_calm c (hbody c hc)) ?_
    exact chars_append _ _ _ (by decide) (fun c hc => inert_calm c (hpost c hc))
  have hRhd : ∀ c t, pre ++ (cs ("<div class=\"math-display\">") ++
      (body ++ (cs ("</div>") ++ post))) = c :: t → ¬(c = '#') ∧ ¬(c = '-') := by
    intro c t h
    rcases pre with _ | ⟨p, ps⟩
    · rw [List.nil_append] at h
      have h2 : ('<' :: (cs ("div class=\"math-display\">") ++
          (body ++ (cs ("</div>") ++ post))) : Cs) = c :: t := h
      have hc : c = '<' := (List.cons_eq_cons.mp h2).1.symm
      rw [hc]
      exact ⟨by decide, by decide⟩
    · rw [List.cons_append] at h
      have hc : c = p := (List.cons_eq_cons.mp h).1.symm
      have hp2 := hpre p (List.mem_cons_self p ps)
      rw [hc]
      exact ⟨bool_ne_of inert3 p '#' (by decide) hp2, bool_ne_of inert3 p '-' (by decide) hp2⟩
  simp only [renderLaTeXL]
  rw [e1, e2, e3]
  exact stages_tail_id _ hR hRhd

/-- Witness for claim C3 at a concrete surrounded doubled-dollar span. -/
theorem claim_C3_witness :
    renderLaTeXL (cs ("u") ++ (cs ("$$") ++ (cs ("v") ++ (cs ("$$") ++ cs ("w"))))) =
      cs ("u") ++ (cs ("<div class=\"math-display\">") ++ (cs ("v") ++ (cs ("</div>") ++ cs ("w")))) :=
  claim_C3.1 (cs ("u")) (cs ("v")) (cs ("w")) (by decide) (by decide) (by decide) (by decide)

/-- Claim C4 (confirmed): for rows of cells joined by the ampersand and
double-backslash separators, matrix rendering emits one table with one row
element per row and one cell element per trimmed cell; each of the five
environment kinds is recognized between its begin and end markers and tagged
with its own class, and the full pipeline produces exactly that table. -/
theorem claim_C4 :
    (∀ (cls : Cs) (rows : List (List Cs)), rows ≠ [] → (∀ r ∈ rows, r ≠ []) →
      (∀ r ∈ rows, ∀ cell ∈ r, ∀ c ∈ cell, ¬(c = '\\') ∧ ¬(c = '&')) →
      renderMatrixL (ic (cs ("\\\\")) (rows.map (ic (cs ("&"))))) cls =
        cs ("<table class=\"math-matrix ") ++ cls ++ cs ("\"><tbody>") ++
          joinL (rows.map (fun r =>
            cs ("<tr>") ++
              joinL (r.map (fun cell => cs ("<td>") ++ jsTrim cell ++ cs ("</td>"))) ++
            cs ("</tr>"))) ++
          cs ("</tbody></table>")) ∧
    envMatrix (cs ("pmatrix")) (cs ("math-pmatrix"))
      (cs ("\\begin\x7bpmatrix\x7d1 & 2 \\\\ 3 & 4\\end\x7bpmatrix\x7d")) =
      some (cs ("<table class=\"math-matrix math-pmatrix\"><tbody><tr><td>1</td><td>2</td></tr><tr><td>3</td><td>4</td></tr></tbody></table>"), []) ∧
    envMatrix (cs ("bmatrix")) (cs ("math-bmatrix"))
      (cs ("\\begin\x7bbmatrix\x7d1 & 2 \\\\ 3 & 4\\end\x7bbmatrix\x7d")) =
      some (cs ("<table class=\"math-matrix math-bmatrix\"><tbody><tr><td>1</td><td>2</td></tr><tr><td>3</td><td>4</td></tr></tbody></table>"), []) ∧
    envMatrix (cs ("matrix")) (cs (""))
      (cs ("\\begin\x7bmatrix\x7d1 & 2 \\\\ 3 & 4\\end\x7bmatrix\x7d")) =
      some (cs ("<table class=\"math-matrix \"><tbody><tr><td>1</td><td>2</td></tr><tr><td>3</td><td>4</td></tr></tbody></table>"), []) ∧
    envMatrix (cs ("vmatrix")) (cs ("math-vmatrix"))
      (cs ("\\begin\x7bvmatrix\x7d1 & 2 \\\\ 3 & 4\\end\x7bvmatrix\x7d")) =
      some (cs ("<table class=\"math-matrix math-vmatrix\"><tbody><tr><td>1</td><td>2</td></tr><tr><td>3</td><td>4</td></tr></tbody></table>"), []) ∧
    envMatrix (cs ("Vmatrix")) (cs ("math-Vmatrix"))
      (cs ("\\begin\x7bVmatrix\x7d1 & 2 \\\\ 3 & 4\\end\x7bVmatrix\x7d")) =
      some (cs ("<table class=\"math-matrix math-Vmatrix\"><tbody><tr><td>1</td><td>2</td></tr><tr><td>3</td><td>4</td></tr></tbody></table>"), []) ∧
    renderLaTeX ("\\begin\x7bpmatrix\x7d1 & 2 \\\\ 3 & 4\\end\x7bpmatrix\x7d") =
      ("<table class=\"math-matrix math-pmatrix\"><tbody><tr><td>1</td><td>2</td></tr><tr><td>3</td><td>4</td></tr></tbody></table>") := by
  refine ⟨?_, by decide, by decide, by decide, by decide, by decide, by decide⟩
  intro cls rows h1 h2 h3
  exact renderMatrix_rows cls rows h1 h2 h3

/-- Witness for claim C4 at a concrete two-by-two cell matrix. -/
theorem claim_C4_witness :
    renderMatrixL (ic (cs ("\\\\")) ([[cs ("1"), cs ("2")], [cs ("3"), cs ("4")]].map (ic (cs ("&")))))
      (cs ("math-pmatrix")) =
      cs ("<table class=\"math-matrix ") ++ cs ("math-pmatrix") ++ cs ("\"><tbody>") ++
        joinL ([[cs ("1"), cs ("2")], [cs ("3"), cs ("4")]].map (fun r =>
          cs ("<tr>") ++
            joinL (r.map (fun cell => cs ("<td>") ++ jsTrim cell ++ cs ("</td>"))) ++
          cs ("</tr>"))) ++
        cs ("</tbody></table>") :=
  claim_C4.1 (cs ("math-pmatrix")) [[cs ("1"), cs ("2")], [cs ("3"), cs ("4")]]
    (by decide) (by decide) (by decide)

/-- Claim C5 (corrected): an empty or whitespace-only matrix body yields a
table with exactly one row holding one empty cell (not zero rows as the
original claim stated), and a separator-free row yields a one-cell row with
its text trimmed. -/
theorem claim_C5 :
    (∀ (cls s : Cs), (∀ c ∈ s, isWsC c = true) →
      renderMatrixL s cls =
        cs ("<table class=\"math-matrix ") ++ cls ++
          cs ("\"><tbody><tr><td></td></tr></tbody></table>")) ∧
    (∀ (cls row : Cs), (∀ c ∈ row, ¬(c = '\\')) → (∀ c ∈ row, ¬(c = '&')) →
      renderMatrixL row cls =
        cs ("<table class=\"math-matrix ") ++ cls ++ cs ("\"><tbody>") ++ cs ("<tr>") ++
          cs ("<td>") ++ jsTrim row ++ cs ("</td>") ++ cs ("</tr>") ++
          cs ("</tbody></table>")) := by
  constructor
  · intro cls s h
    unfold renderMatrixL
    rw [jsTrim_all_ws s h]
    simp only [List.append_assoc]
    refine congrArg (fun z => cs ("<table class=\"math-matrix ") ++ (cls ++ z)) ?_
    decide
  · intro cls row h1 h2
    have hrow : splitOn (cs ("\\\\")) (jsTrim row) = [jsTrim row] :=
      splitOn_single (cs ("\\\\")) '\\' rfl (jsTrim row) (fun c hc => h1 c (jsTrim_mem row c hc))
    have hcell : splitOn (cs ("&")) (jsTrim row) = [jsTrim row] :=
      splitOn_single (cs ("&")) '&' rfl (jsTrim row) (fun c hc => h2 c (jsTrim_mem row c hc))
    unfold renderMatrixL
    rw [hrow]
    simp only [List.map_cons, List.map_nil, jsTrim_idem]
    rw [hcell]
    simp only [List.map_cons, List.map_nil, jsTrim_idem, joinL, List.foldr_cons,
      List.foldr_nil, List.append_nil, List.append_assoc]

/-- Witness for claim C5 at a whitespace-only body. -/
theorem claim_C5_witness :
    renderMatrixL (cs ("  ")) (cs ("math-bmatrix")) =
      cs ("<table class=\"math-matrix ") ++ cs ("math-bmatrix") ++
        cs ("\"><tbody><tr><td></td></tr></tbody></table>") :=
  claim_C5.1 (cs ("math-bmatrix")) (cs ("  ")) (by decide)

/-- Counterexample to claim C5's zero-row wording: the empty body produces a
table that does contain a row element. -/
theorem claim_C5_counterexample :
    renderMatrix ("") ("math-pmatrix") =
      ("<table class=\"math-matrix math-pmatrix\"><tbody><tr><td></td></tr></tbody></table>") ∧
    containsB (cs ("<tr>"))
      (cs ("<table class=\"math-matrix math-pmatrix\"><tbody><tr><td></td></tr></tbody></table>")) = true := by
  decide

/-- Claim C6 (confirmed): absent input is treated as the empty string, and
any input that trims to nothing yields the no-content sentinel rather than
markup. -/
theorem claim_C6 :
    LaTeXRenderer none = RenderOutput.noContent ∧
    LaTeXRenderer (some ("")) = RenderOutput.noContent ∧
    LaTeXRenderer none = LaTeXRenderer (some ("")) ∧
    (∀ s : String, (∀ c ∈ s.data, isWsC c = true) →
      LaTeXRenderer (some s) = RenderOutput.noContent) := by
  refine ⟨rfl, rfl, rfl, ?_⟩
  intro s h
  unfold LaTeXRenderer
  show (if (jsTrim s.data).isEmpty then RenderOutput.noContent
    else RenderOutput.rendered (String.mk (ensureWrappedL (renderLaTeXL (jsTrim s.data))))) =
    RenderOutput.noContent
  rw [jsTrim_all_ws s.data h]
  rfl

/-- Witness for claim C6 at a concrete whitespace-only input. -/
theorem claim_C6_witness :
    LaTeXRenderer (some (" \t\n ")) = RenderOutput.noContent :=
  claim_C6.2.2.2 (" \t\n ") (by decide)

/-- Claim C7 (corrected): each single-argument command captures any nonempty
brace-free argument exactly into its structural wrapper, and the concrete
pipeline runs confirm all eight wrappers.  The original claim's wording (any
argument with no unbalanced brace) is refuted separately: the argument run
stops at the first closing brace, so balanced inner groups are truncated. -/
theorem claim_C7 :
    (∀ X rest : Cs, X ≠ [] → (∀ c ∈ X, ¬(c = rbr)) →
      overlineM (cs ("\\overline\x7b") ++ (X ++ rbr :: rest)) =
        some (cs ("<span class=\"math-overline\">") ++ X ++ cs ("</span>"), rest) ∧
      underlineM (cs ("\\underline\x7b") ++ (X ++ rbr :: rest)) =
        some (cs ("<span class=\"math-underline\">") ++ X ++ cs ("</span>"), rest) ∧
      hatM (cs ("\\hat\x7b") ++ (X ++ rbr :: rest)) =
        some (cs ("<span class=\"math-hat\">") ++ X ++ cs ("</span>"), rest) ∧
      tildeM (cs ("\\tilde\x7b") ++ (X ++ rbr :: rest)) =
        some (cs ("<span class=\"math-tilde\">") ++ X ++ cs ("</span>"), rest) ∧
      vecM (cs ("\\vec\x7b") ++ (X ++ rbr :: rest)) =
        some (cs ("<span class=\"math-vec\">") ++ X ++ cs ("</span>"), rest) ∧
      dotM (cs ("\\dot\x7b") ++ (X ++ rbr :: rest)) =
        some (cs ("<span class=\"math-dot\">") ++ X ++ cs ("</span>"), rest) ∧
      ddotM (cs ("\\ddot\x7b") ++ (X ++ rbr :: rest)) =
        some (cs ("<span class=\"math-ddot\">") ++ X ++ cs ("</span>"), rest) ∧
      sqrtM (cs ("\\sqrt\x7b") ++ (X ++ rbr :: rest)) =
        some (cs ("√(") ++ X ++ cs (")"), rest)) ∧
    renderLaTeX ("\\overline\x7bAB\x7d") = ("<span class=\"math-overline\">AB</span>") ∧
    renderLaTeX ("\\underline\x7bx\x7d") = ("<span class=\"math-underline\">x</span>") ∧
    renderLaTeX ("\\hat\x7bx\x7d") = ("<span class=\"math-hat\">x</span>") ∧
    renderLaTeX ("\\tilde\x7bx\x7d") = ("<span class=\"math-tilde\">x</span>") ∧
    renderLaTeX ("\\vec\x7bv\x7d") = ("<span class=\"math-vec\">v</span>") ∧
    renderLaTeX ("\\dot\x7bx\x7d") = ("<span class=\"math-dot\">x</span>") ∧
    renderLaTeX ("\\ddot\x7bx\x7d") = ("<span class=\"math-ddot\">x</span>") ∧
    renderLaTeX ("\\sqrt\x7b2\x7d") = ("√(2)") := by
  refine ⟨?_, by decide, by decide, by decide, by decide, by decide, by decide, by decide,
    by decide⟩
  intro X rest hne hX
  have hX2 : ∀ c ∈ X, notRbr c = true := fun c hc => notRbr_of_ne c (hX c hc)
  unfold overlineM underlineM hatM tildeM vecM dotM ddotM sqrtM
  exact ⟨braceCmd_capture _ _ _ X rest hne hX2, braceCmd_capture _ _ _ X rest hne hX2,
    braceCmd_capture _ _ _ X rest hne hX2, braceCmd_capture _ _ _ X rest hne hX2,
    braceCmd_capture _ _ _ X rest hne hX2, braceCmd_capture _ _ _ X rest hne hX2,
    braceCmd_capture _ _ _ X rest hne hX2, braceCmd_capture _ _ _ X rest hne hX2⟩

/-- Witness for claim C7 at a concrete two-letter argument. -/
theorem claim_C7_witness :
    overlineM (cs ("\\overline\x7b") ++ (cs ("ab") ++ rbr :: cs (""))) =
      some (cs ("<span class=\"math-overline\">") ++ cs ("ab") ++ cs ("</span>"), cs ("")) :=
  (claim_C7.1 (cs ("ab")) (cs ("")) (by decide) (by decide)).1

/-- Counterexample to claim C7's balanced-brace wording: an argument with a
balanced inner group is truncated at the inner closing brace, so the wrapper
content is not the whole argument. -/
theorem claim_C7_counterexample :
    renderLaTeX ("\\hat\x7ba\x7bb\x7dc\x7d") = ("<span class=\"math-hat\">a\x7bb</span>c\x7d") ∧
    ¬(renderLaTeX ("\\hat\x7ba\x7bb\x7dc\x7d") = ("<span class=\"math-hat\">a\x7bb\x7dc</span>")) := by
  decide

/-- Claim C8 (corrected): a caret or underscore followed by a digit run or a
brace group becomes a superscript or subscript element, after fraction
parsing (a caret inside a fraction argument is still converted) and before
paragraph wrapping; the whole digit run is taken, not a single digit as the
original claim stated. -/
theorem claim_C8 :
    (∀ D rest : Cs, D ≠ [] → (∀ c ∈ D, Char.isDigit c = true) →
      (∀ c t, rest = c :: t → Char.isDigit c = false) →
      supDigitM (cs ("^") ++ (D ++ rest)) =
        some (cs ("<sup>") ++ D ++ cs ("</sup>"), rest) ∧
      subDigitM (cs ("_") ++ (D ++ rest)) =
        some (cs ("<sub>") ++ D ++ cs ("</sub>"), rest)) ∧
    (∀ X rest : Cs, X ≠ [] → (∀ c ∈ X, ¬(c = rbr)) →
      supBraceM (cs ("^\x7b") ++ (X ++ rbr :: rest)) =
        some (cs ("<sup>") ++ X ++ cs ("</sup>"), rest) ∧
      subBraceM (cs ("_\x7b") ++ (X ++ rbr :: rest)) =
        some (cs ("<sub>") ++ X ++ cs ("</sub>"), rest)) ∧
    renderLaTeX ("x^23") = ("x<sup>23</sup>") ∧
    renderLaTeX ("x_1") = ("x<sub>1</sub>") ∧
    renderLaTeX ("\\frac\x7ba^2\x7d\x7bb\x7d") =
      ("<span class=\"math-frac\"><span class=\"math-num\">a<sup>2</sup></span><span class=\"math-den\">b</span></span>") ∧
    LaTeXRenderer (some ("x^23")) = RenderOutput.rendered ("<p class=\"mb-4\">x<sup>23</sup></p>") := by
  refine ⟨?_, ?_, by decide, by decide, by decide, by decide⟩
  · intro D rest hne hD hrest
    unfold supDigitM subDigitM
    exact ⟨digit_fire (cs ("^")) _ _ D rest hne hD hrest,
      digit_fire (cs ("_")) _ _ D rest hne hD hrest⟩
  · intro X rest hne hX
    have hX2 : ∀ c ∈ X, notRbr c = true := fun c hc => notRbr_of_ne c (hX c hc)
    unfold supBraceM subBraceM
    exact ⟨braceCmd_capture _ _ _ X rest hne hX2, braceCmd_capture _ _ _ X rest hne hX2⟩

/-- Witness for claim C8 at a concrete two-digit run. -/
theorem claim_C8_witness :
    supDigitM (cs ("^") ++ (cs ("23") ++ cs (""))) =
      some (cs ("<sup>") ++ cs ("23") ++ cs ("</sup>"), cs ("")) :=
  (claim_C8.1 (cs ("23")) (cs ("")) (by decide) (by decide) (fun c t h => nomatch h)).1

/-- Counterexample to claim C8's single-digit wording: the caret takes the
whole digit run into the superscript, not one digit. -/
theorem claim_C8_counterexample :
    renderLaTeX ("x^23") = ("x<sup>23</sup>") ∧
    ¬(renderLaTeX ("x^23") = ("x<sup>2</sup>3")) := by
  decide

/-- Claim C10 (confirmed): no stage escapes HTML; a string of pass-through
characters, which include the HTML-significant ones, is returned verbatim,
and markup inside math delimiters or matrix cells is interpolated raw. -/
theorem claim_C10 :
    (∀ s : Cs, (∀ c ∈ s, passChar c = true) → renderLaTeXL s = s) ∧
    renderLaTeX ("$$<img src=x>$$") = ("<div class=\"math-display\"><img src=x></div>") ∧
    renderLaTeX ("\\begin\x7bpmatrix\x7d<script>bad()</script>\\end\x7bpmatrix\x7d") =
      ("<table class=\"math-matrix math-pmatrix\"><tbody><tr><td><script>bad()</script></td></tr></tbody></table>") ∧
    renderLaTeX ("a<b>c</b> & x") = ("a<b>c</b> & x") := by
  refine ⟨?_, by decide, by decide, by decide⟩
  intro s hp
  refine renderLaTeXL_calm_id s (fun c hc => pass_calm c (hp c hc)) ?_
  intro c t ht
  have hcs : c ∈ s := by
    rw [ht]
    exact List.mem_cons_self c t
  exact ⟨bool_ne_of passChar c '#' (by decide) (hp c hcs),
    bool_ne_of passChar c '-' (by decide) (hp c hcs)⟩

/-- Witness for claim C10 at a concrete string holding raw markup. -/
theorem claim_C10_witness :
    renderLaTeXL (cs ("a<b>c</b> = d & e")) = cs ("a<b>c</b> = d & e") :=
  claim_C10.1 (cs ("a<b>c</b> = d & e")) (by decide)
